import Mathlib

/-!
# Wake-on-LAN usermod: packet builder, MAC parsing and send scheduler

A shallow embedding of `usermods/Wake_on_LAN/usermod_wake_on_lan.h`
(class `UsermodWakeOnLAN`).  Member functions become functions on an explicit
state record `WOLState`; everything the class reads from the platform
(`WiFi`, `millis()`, the `WiFiUDP` socket) is an explicit environment `Env`,
and every datagram handed to the socket is returned in a list.
-/

namespace UsermodWakeOnLAN

/-! ## Data model -/

/-- A `uint8_t`. -/
abbrev Byte := Fin 256

/-- The array `uint8_t targetMAC[6]`. -/
abbrev MAC := Fin 6 → Byte

/-- An IPv4 `IPAddress`, octet `0` first. -/
abbrev IPv4 := Fin 4 → Byte

/-- A C string: the chars that precede the terminating NUL, one `Char` for
each `char`. -/
abbrev CStr := List Char

/-- The modulus of the 32-bit types `unsigned long`, `unsigned int`, `int` and
`uint32_t` of the ESP targets. -/
def wordSize : Nat := 2 ^ 32

/-- The cast `(uint8_t)x` of a machine integer given by its bit pattern. -/
def toUInt8 (x : Nat) : Byte := ⟨x % 256, Nat.mod_lt _ (by decide)⟩

/-- The data members of `UsermodWakeOnLAN` (the socket `udp` lives in `Env`).
The `unsigned long` members hold values below `wordSize`. -/
structure WOLState where
  enabled : Bool
  initDone : Bool
  triggered : Bool
  lastWOL : Nat
  retryDelay : Nat
  timeoutDuration : Nat
  sendOnWifiConnect : Bool
  periodicRetry : Bool
  targetMAC : MAC

/-- The member initialisers of the class. -/
def WOLState.default : WOLState where
  enabled := true
  initDone := false
  triggered := false
  lastWOL := 0
  retryDelay := 30000
  timeoutDuration := 300000
  sendOnWifiConnect := true
  periodicRetry := true
  targetMAC := fun _ => 0

/-- The two build configurations of the broadcast computation
(`#ifdef ESP8266` and its `#else`). -/
inductive Platform where
  | esp8266
  | other
deriving DecidableEq, Repr

/-- What one callback observes of the platform: `WiFi.isConnected()`,
`WiFi.localIP()`, `WiFi.subnetMask()`, the value of `millis()` (one clock
reading per callback), and the results of `udp.beginPacket`, `udp.write`
and `udp.endPacket`. -/
structure Env where
  platform : Platform
  wifiConnected : Bool
  localIP : IPv4
  subnetMask : IPv4
  millis : Nat
  beginPacketOk : Bool
  written : Nat
  endPacketOk : Bool

/-- A UDP datagram handed to the network by `udp.endPacket()`. -/
structure Datagram where
  dest : IPv4
  port : Nat
  payload : List Byte

/-! ## Packet builder (`sendWOLPacket`, lines 58-69) -/

/-- One pass of `for (int i = lo; i < lo + n; i++) packet[i] = f i`. -/
def fillLoop (f : Nat → Byte) : Nat → Nat → List Byte → List Byte
  | 0, _, p => p
  | n + 1, i, p => fillLoop f n (i + 1) (p.set i (f i))

/-- The local array `uint8_t packet[102]` after both loops: the first loop
stores `0xFF` at `0..5`, the second stores `targetMAC[(i - 6) % 6]` at
`6..101`. -/
def packet (targetMAC : MAC) : List Byte :=
  let p0 : List Byte := List.replicate 102 0
  let p1 := fillLoop (fun _ => 0xFF) 6 0 p0
  fillLoop (fun i => targetMAC ⟨(i - 6) % 6, Nat.mod_lt _ (by decide)⟩) 96 6 p1

/-- The loop that sets `macIsSet`: some byte of `targetMAC` is non-zero. -/
def macIsSet (targetMAC : MAC) : Bool :=
  (List.finRange 6).any fun i => targetMAC i != 0

/-! ## Broadcast address (`sendWOLPacket`, lines 71-80) -/

/-- The operator `~` on a 32-bit machine integer (an `int` after integer
promotion, or a `uint32_t`), as a bit pattern. -/
def bitNot32 (x : Nat) : Nat := wordSize - 1 - x % wordSize

/-- One statement `broadcastIP[i] |= (~WiFi.subnetMask()[i]);` of the ESP8266
branch: the mask octet is promoted to `int`, complemented, or-ed with the
promoted address octet, and the result is stored back into a `uint8_t`. -/
def orNotOctet (ip mask : Byte) : Byte := toUInt8 (ip.val ||| bitNot32 mask.val)

/-- The conversion `IPAddress -> uint32_t` (octet `0` is the low byte). -/
def toWord (a : IPv4) : Nat :=
  (a 0).val + 256 * (a 1).val + 65536 * (a 2).val + 16777216 * (a 3).val

/-- The conversion `uint32_t -> IPAddress`. -/
def ofWord (w : Nat) : IPv4 := fun i => toUInt8 (w / 256 ^ i.val)

/-- The value of `broadcastIP` in either build configuration. -/
def broadcastAddress (pf : Platform) (localIP subnetMask : IPv4) : IPv4 :=
  match pf with
  | .esp8266 => fun i => orNotOctet (localIP i) (subnetMask i)
  | .other => ofWord ((toWord localIP ||| bitNot32 (toWord subnetMask)) % wordSize)

/-! ## `sendWOLPacket` -/

/-- The member function `sendWOLPacket()`: the new state and the datagrams that left
the socket.  `udp.endPacket()` is evaluated before `written == 102`; a
datagram leaves the socket when `beginPacket` and `endPacket` both succeed,
and carries the bytes that `write` accepted. -/
def sendWOLPacket (env : Env) (st : WOLState) : WOLState × List Datagram :=
  if !env.wifiConnected then (st, [])
  else if !macIsSet st.targetMAC then (st, [])
  else
    let pkt := packet st.targetMAC
    let broadcastIP := broadcastAddress env.platform env.localIP env.subnetMask
    if env.beginPacketOk then
      let sent : List Datagram :=
        if env.endPacketOk then [⟨broadcastIP, 9, pkt.take env.written⟩] else []
      if env.endPacketOk && env.written == 102 then
        ({ st with lastWOL := env.millis % wordSize }, sent)
      else (st, sent)
    else (st, [])

/-! ## `sscanf` with the format `"%x:%x:%x:%x:%x:%x"`

The C library is not part of the repository; `%x` follows ISO C
(7.21.6.2 and `strtoul` with base 16): white space is skipped, then an
optional sign, an optional `0x`/`0X` and the longest run of hexadecimal
digits are read, and the conversion fails when no digit was read.  No field
width is given, so a field has any number of digits.  A value that does not
fit `unsigned long` is stored as `ULONG_MAX`, as `strtoul` returns it.

One case is decided by the library and not by the source: a `0x` that no
digit follows.  `scanHex`, `sscanf` and `parseMACAddress` read it as ISO C
words it, a matching failure; `scanHexWith`, `sscanfWith` and
`parseMACAddressWith` below take the library's choice as a parameter, and
agree with the former whenever those succeed. -/

/-- The C-locale `isspace`. -/
def isSpace (c : Char) : Bool := c.toNat = 32 || (9 ≤ c.toNat && c.toNat ≤ 13)

/-- The value of a hexadecimal digit, if the char is one. -/
def hexDigitVal (c : Char) : Option Nat :=
  if 48 ≤ c.toNat ∧ c.toNat ≤ 57 then some (c.toNat - 48)
  else if 97 ≤ c.toNat ∧ c.toNat ≤ 102 then some (c.toNat - 87)
  else if 65 ≤ c.toNat ∧ c.toNat ≤ 70 then some (c.toNat - 55)
  else none

/-- The C-locale `isxdigit`. -/
def isHexDigit (c : Char) : Bool := (hexDigitVal c).isSome

/-- Reads an optional sign: whether it was `-`, and the remaining input. -/
def skipSign (s : CStr) : Bool × CStr :=
  match s with
  | c :: t => if c = '-' then (true, t) else if c = '+' then (false, t) else (false, c :: t)
  | [] => (false, [])

/-- Reads an optional `0x` or `0X`. -/
def skipPrefix (s : CStr) : CStr :=
  match s with
  | c :: x :: t => if c = '0' ∧ (x = 'x' ∨ x = 'X') then t else c :: x :: t
  | t => t

/-- The longest run of hexadecimal digits (as digit values) and the rest. -/
def takeDigits : CStr → List Nat × CStr
  | [] => ([], [])
  | c :: t =>
    match hexDigitVal c with
    | some v => (v :: (takeDigits t).1, (takeDigits t).2)
    | none => ([], c :: t)

/-- The number written by a digit sequence in base 16. -/
def hexValue (ds : List Nat) : Nat := ds.foldl (fun acc d => 16 * acc + d) 0

/-- The `unsigned long` that `strtoul` yields for a magnitude and a sign. -/
def strtoulValue (neg : Bool) (v : Nat) : Nat :=
  if wordSize ≤ v then wordSize - 1
  else if neg then (wordSize - v) % wordSize
  else v

/-- One `%x` conversion: the bit pattern stored through the `int*` argument
and the unread input, or `none` on a matching failure. -/
def scanHex (s : CStr) : Option (Nat × CStr) :=
  let s1 := skipSign (s.dropWhile isSpace)
  let s2 := takeDigits (skipPrefix s1.2)
  if s2.1 = [] then none else some (strtoulValue s1.1 (hexValue s2.1), s2.2)

/-- A directive of a `scanf` format: `%x` or an ordinary character. -/
inductive Directive where
  | hex
  | lit (c : Char)

/-- The values `sscanf` assigns, in order; its return value is their number
(or `EOF`, which is not `6` either). -/
def sscanf : List Directive → CStr → List Nat
  | [], _ => []
  | .lit c :: ds, x :: t => if x = c then sscanf ds t else []
  | .lit _ :: _, [] => []
  | .hex :: ds, s =>
    match scanHex s with
    | some (v, r) => v :: sscanf ds r
    | none => []

/-- The format string `"%x:%x:%x:%x:%x:%x"`. -/
def macFormat : List Directive :=
  [.hex, .lit ':', .hex, .lit ':', .hex, .lit ':', .hex, .lit ':', .hex, .lit ':', .hex]

/-! ## `parseMACAddress` and `getMACString` -/

/-- The member function `parseMACAddress(macStr)`: the returned `bool` and the
new state; `none` is the null pointer. -/
def parseMACAddress (st : WOLState) (macStr : Option CStr) : Bool × WOLState :=
  match macStr with
  | none => (false, st)
  | some s =>
    if s.length < 17 then (false, st)
    else
      let values := sscanf macFormat s
      if values.length = 6 then
        let tempMAC : MAC := fun i => toUInt8 (values.getD i.val 0)
        (true, { st with targetMAC := tempMAC })
      else (false, st)

/-- The conversion `%02X` of a non-negative `int`: upper-case hexadecimal,
zero-padded to two characters. -/
def fmt02X (v : Nat) : CStr :=
  let ds := (Nat.toDigits 16 v).map Char.toUpper
  List.replicate (2 - ds.length) '0' ++ ds

/-- The member function `getMACString()`: `snprintf` into `char macStr[18]` keeps at
most 17 chars. -/
def getMACString (st : WOLState) : CStr :=
  let m := st.targetMAC
  (fmt02X (m 0).val ++ ':' :: fmt02X (m 1).val ++ ':' :: fmt02X (m 2).val ++ ':' ::
    fmt02X (m 3).val ++ ':' :: fmt02X (m 4).val ++ ':' :: fmt02X (m 5).val).take 17

/-! ## Callbacks -/

/-- The callback `setup()`. -/
def setup (st : WOLState) : WOLState := { st with initDone := true }

/-- The callback `connected()`. -/
def connected (env : Env) (st : WOLState) : WOLState × List Datagram :=
  if !st.enabled || !st.initDone then (st, [])
  else if st.sendOnWifiConnect && !st.triggered then
    sendWOLPacket env { st with triggered := true }
  else (st, [])

/-- Subtraction of two `unsigned long` values. -/
def subU32 (a b : Nat) : Nat := (a % wordSize + wordSize - b % wordSize) % wordSize

/-- The condition under which `loop()` calls `sendWOLPacket()`. -/
def retryDue (env : Env) (st : WOLState) : Bool :=
  st.periodicRetry && st.triggered &&
    decide (st.retryDelay ≤ subU32 env.millis st.lastWOL) &&
    decide (env.millis ≤ st.timeoutDuration)

/-- The callback `loop()`. -/
def loop (env : Env) (st : WOLState) : WOLState × List Datagram :=
  if !st.enabled || !st.initDone || !env.wifiConnected then (st, [])
  else if retryDue env st then sendWOLPacket env st
  else (st, [])

/-- The callback `readFromJsonState(root)`.  The argument is `none` when
`root["WakeOnLAN"]` is null and otherwise holds `usermod["wol"].as<bool>()`. -/
def readFromJsonState (env : Env) (usermod : Option Bool) (st : WOLState) :
    WOLState × List Datagram :=
  if !st.initDone then (st, [])
  else
    match usermod with
    | some true => sendWOLPacket env { st with triggered := true }
    | _ => (st, [])

/-- The callback `onMqttMessage(topic, payload)`: the state, the datagrams
and the returned `bool`. -/
def onMqttMessage (env : Env) (topic payload : CStr) (st : WOLState) :
    (WOLState × List Datagram) × Bool :=
  if !st.enabled || !st.initDone then ((st, []), false)
  else if topic.length = 4 ∧ topic.take 4 = "/wol".toList then
    if payload = "send".toList ∨ payload = "wake".toList ∨ payload = "1".toList then
      (sendWOLPacket env { st with triggered := true }, true)
    else ((st, []), false)
  else ((st, []), false)

/-! ## The events that can cause a send -/

/-- The trigger entry points of the usermod. -/
inductive Trigger where
  | connected
  | loop
  | jsonState (usermod : Option Bool)
  | mqtt (topic payload : CStr)

/-- Runs one trigger: the new state and the datagrams sent. -/
def fire (env : Env) (t : Trigger) (st : WOLState) : WOLState × List Datagram :=
  match t with
  | .connected => connected env st
  | .loop => loop env st
  | .jsonState u => readFromJsonState env u st
  | .mqtt topic payload => (onMqttMessage env topic payload st).1

/-- Runs a sequence of triggers, each under its own platform observation,
and keeps the final state. -/
def runAll : List (Env × Trigger) → WOLState → WOLState
  | [], st => st
  | (e, t) :: rest, st => runAll rest (fire e t st).1

/-- A transport on which `beginPacket`, `write` and `endPacket` all succeed. -/
def Env.transportOk (env : Env) : Bool :=
  env.beginPacketOk && env.written == 102 && env.endPacketOk

/-! ## Concrete states and observations used in the examples -/

/-- The address `AA:BB:CC:DD:EE:FF`. -/
def sampleMAC : MAC := ![0xAA, 0xBB, 0xCC, 0xDD, 0xEE, 0xFF]

/-- WiFi up at `192.168.1.42/24`, a working socket, and the clock at `t`. -/
def sampleEnv (t : Nat) : Env where
  platform := .other
  wifiConnected := true
  localIP := ![192, 168, 1, 42]
  subnetMask := ![255, 255, 255, 0]
  millis := t
  beginPacketOk := true
  written := 102
  endPacketOk := true

/-- The defaults after `setup()`, with the sample address configured. -/
def idleState : WOLState := setup { WOLState.default with targetMAC := sampleMAC }

/-- The idle state after a first send at time `0`. -/
def activeState : WOLState := { idleState with triggered := true, lastWOL := 0 }

/-- The idle state with the feature switched off. -/
def disabledState : WOLState := { idleState with enabled := false }

/-! ## The string patterns the specification names -/

/-- The 22 hexadecimal digit chars with their values. -/
def hexTable : List (Char × Nat) :=
  [('0', 0), ('1', 1), ('2', 2), ('3', 3), ('4', 4), ('5', 5), ('6', 6), ('7', 7), ('8', 8),
   ('9', 9), ('a', 10), ('b', 11), ('c', 12), ('d', 13), ('e', 14), ('f', 15),
   ('A', 10), ('B', 11), ('C', 12), ('D', 13), ('E', 14), ('F', 15)]

/-- A canonical MAC string: 17 chars, a colon at positions 2, 5, 8, 11, 14
and a hexadecimal digit of either case everywhere else. -/
def isCanonicalMAC (s : CStr) : Bool :=
  s.length = 17 &&
    (List.range 17).all fun i =>
      if i % 3 = 2 then s.getD i ' ' = ':' else isHexDigit (s.getD i ' ')

/-- One group of one or two hexadecimal digits at the head of the input:
the input after it. -/
def specGroup (s : CStr) : Option CStr :=
  match s with
  | a :: b :: t => if isHexDigit a then (if isHexDigit b then some t else some (b :: t)) else none
  | [a] => if isHexDigit a then some [] else none
  | [] => none

/-- The input begins with `n + 1` groups of one or two hexadecimal digits
separated by colons. -/
def specGroups : Nat → CStr → Bool
  | 0, s => (specGroup s).isSome
  | n + 1, s =>
    match specGroup s with
    | some (c :: t) => c = ':' && specGroups n t
    | _ => false

/-- The pattern "six one-or-two-digit hexadecimal groups separated by colons",
read generously: some prefix of the string has that shape. -/
def matchesSpecPattern (s : CStr) : Bool := specGroups 5 s

/-- What one `%x` reads, as a shape: the field `f` is white space, an
optional sign, an optional `0x` or `0X`, and at least one hexadecimal digit;
and when the field is a lone digit `0` without prefix, the input `rest` that
follows it does not start with `x` or `X` (the scanner would take it for a
prefix). -/
def IsHexField (f rest : CStr) : Prop :=
  ∃ ws sign pre digits : CStr,
    f = ws ++ (sign ++ (pre ++ digits)) ∧
    (∀ c ∈ ws, isSpace c = true) ∧
    (sign = [] ∨ sign = ['+'] ∨ sign = ['-']) ∧
    (pre = [] ∨ pre = ['0', 'x'] ∨ pre = ['0', 'X']) ∧
    digits ≠ [] ∧ (∀ c ∈ digits, isHexDigit c = true) ∧
    (pre = [] → digits = ['0'] → ∀ x t, rest = x :: t → x ≠ 'x' ∧ x ≠ 'X')

/-- The input begins with `n + 1` fields separated by colons; anything may
follow the last field. -/
def MatchesFields : Nat → CStr → Prop
  | 0, s => ∃ f rest, s = f ++ rest ∧ IsHexField f rest
  | n + 1, s => ∃ f t, s = f ++ ':' :: t ∧ IsHexField f (':' :: t) ∧ MatchesFields n t

/-- The shape `sscanf` accepts for `"%x:%x:%x:%x:%x:%x"`: six fields
separated by colons, followed by anything. -/
def MatchesScanfPattern (s : CStr) : Prop := MatchesFields 5 s

/-- The format of `n + 1` conversions `%x` separated by colons. -/
def hexFields : Nat → List Directive
  | 0 => [.hex]
  | n + 1 => .hex :: .lit ':' :: hexFields n

/-! ## Configuration and state documents (`addToJsonState`, `addToConfig`, `readFromConfig`) -/

/-- The object `root["WakeOnLAN"]` of the configuration document as the
usermod reads it: for each key `none` when the element is null (or not of
the type asked for), otherwise the element converted to that type. -/
structure ConfigObject where
  enabled : Option Bool
  targetMAC : Option CStr
  retryDelay : Option Nat
  timeoutDuration : Option Nat
  sendOnWifiConnect : Option Bool
  periodicRetry : Option Bool

/-- The object without keys, which is also what a null `top` gives for every
key. -/
def ConfigObject.empty : ConfigObject where
  enabled := none
  targetMAC := none
  retryDelay := none
  timeoutDuration := none
  sendOnWifiConnect := none
  periodicRetry := none

/-- Modelled from the spec: the host helper `getJsonValue(element, destination)`,
declared outside this file.  The core "must tolerate partial or missing
fields (falling back to last-known or default values)" and reports whether
the configuration was fully applied: a null element leaves the destination
as it is and yields `false`, any other element is stored and yields `true`. -/
def getJsonValue {α : Type} (element : Option α) (destination : α) : Bool × α :=
  match element with
  | none => (false, destination)
  | some v => (true, v)

/-- Multiplication of two `uint32_t` values. -/
def mulU32 (a b : Nat) : Nat := (a % wordSize * (b % wordSize)) % wordSize

/-- The callback `readFromConfig(root)`: the returned `configComplete` and the new
state.  `element | fallback` is `Option.getD`; the result of
`parseMACAddress` is not used. -/
def readFromConfig (root : Option ConfigObject) (st : WOLState) : Bool × WOLState :=
  let top := root.getD ConfigObject.empty
  let c0 := root.isSome
  let e := getJsonValue top.enabled st.enabled
  let st1 := { st with enabled := e.2 }
  let c1 := c0 && e.1
  let macString := top.targetMAC.getD (getMACString st1)
  let st2 := (parseMACAddress st1 (some macString)).2
  let retryDelaySeconds := top.retryDelay.getD (st2.retryDelay / 1000)
  let st3 := { st2 with retryDelay := mulU32 retryDelaySeconds 1000 }
  let timeoutSeconds := top.timeoutDuration.getD (st3.timeoutDuration / 1000)
  let st4 := { st3 with timeoutDuration := mulU32 timeoutSeconds 1000 }
  let w := getJsonValue top.sendOnWifiConnect st4.sendOnWifiConnect
  let st5 := { st4 with sendOnWifiConnect := w.2 }
  let c2 := c1 && w.1
  let r := getJsonValue top.periodicRetry st5.periodicRetry
  let st6 := { st5 with periodicRetry := r.2 }
  (c2 && r.1, st6)

/-- The callback `addToConfig(root)`: the object it stores under `"WakeOnLAN"`. -/
def addToConfig (st : WOLState) : ConfigObject where
  enabled := some st.enabled
  targetMAC := some (getMACString st)
  retryDelay := some (st.retryDelay / 1000)
  timeoutDuration := some (st.timeoutDuration / 1000)
  sendOnWifiConnect := some st.sendOnWifiConnect
  periodicRetry := some st.periodicRetry

/-- What `addToJsonState` writes under `"WakeOnLAN"`. -/
structure StateObject where
  enabled : Bool
  mac : CStr
  lastSent : Nat

/-- The callback `addToJsonState(root)`: `none` when it returns without writing. -/
def addToJsonState (st : WOLState) : Option StateObject :=
  if !st.initDone || !st.enabled then none
  else some ⟨st.enabled, getMACString st, st.lastWOL⟩

/-- Runs a sequence of configuration reads and keeps the final state. -/
def readAll : List (Option ConfigObject) → WOLState → WOLState
  | [], st => st
  | root :: rest, st => readAll rest (readFromConfig root st).2

/-- The send in `sendWOLPacket` completes: WiFi is up, the address is set,
`beginPacket` succeeds, 102 bytes are written and `endPacket` succeeds. -/
def sendCompletes (env : Env) (st : WOLState) : Bool :=
  env.wifiConnected && macIsSet st.targetMAC && env.beginPacketOk &&
    (env.written == 102) && env.endPacketOk

/-! ## Hexadecimal groups and their numeric values -/

/-- The parts of one group of a MAC string: white space, sign, `0x` prefix
and digits. -/
structure HexGroup where
  ws : CStr
  sign : CStr
  pre : CStr
  digits : CStr

/-- The text of a group. -/
def HexGroup.text (g : HexGroup) : CStr := g.ws ++ (g.sign ++ (g.pre ++ g.digits))

/-- The parts have the shape their names say, and there is a digit. -/
def HexGroup.WellFormed (g : HexGroup) : Prop :=
  (∀ c ∈ g.ws, isSpace c = true) ∧
  (g.sign = [] ∨ g.sign = ['+'] ∨ g.sign = ['-']) ∧
  (g.pre = [] ∨ g.pre = ['0', 'x'] ∨ g.pre = ['0', 'X']) ∧
  g.digits ≠ [] ∧ (∀ c ∈ g.digits, isHexDigit c = true)

/-- The number the digits write in base 16. -/
def HexGroup.magnitude (g : HexGroup) : Nat := hexValue (g.digits.filterMap hexDigitVal)

/-- The numeric value of the group, sign included. -/
def HexGroup.value (g : HexGroup) : Int :=
  if g.sign = ['-'] then -(g.magnitude : Int) else (g.magnitude : Int)

/-- A group that is only digits. -/
def HexGroup.ofDigits (digits : CStr) : HexGroup := ⟨[], [], [], digits⟩

/-- Six groups joined by colons, followed by `rest`. -/
def macText (g : Fin 6 → HexGroup) (rest : CStr) : CStr :=
  (g 0).text ++ ':' :: ((g 1).text ++ ':' :: ((g 2).text ++ ':' :: ((g 3).text ++ ':' ::
    ((g 4).text ++ ':' :: ((g 5).text ++ rest)))))

/-! ## More concrete inputs -/

/-- A configuration object with all keys, the given MAC string and the given
delays in seconds. -/
def sampleConfig (mac : CStr) (retrySeconds timeoutSeconds : Nat) : ConfigObject where
  enabled := some true
  targetMAC := some mac
  retryDelay := some retrySeconds
  timeoutDuration := some timeoutSeconds
  sendOnWifiConnect := some true
  periodicRetry := some true

/-- A configuration object that only sets `enabled`. -/
def enabledOnly (b : Bool) : ConfigObject := { ConfigObject.empty with enabled := some b }

/-! ## `parseMACAddress` over the C libraries -/

/-- What `%x` does with a `0x` or `0X` that no hexadecimal digit follows: a
matching failure (ISO C), the value 0 with the `x` read (glibc), or the value
0 with the `x` left in the input (newlib). -/
inductive BarePrefix where
  | matchingFailure
  | zeroTakesX
  | zeroLeavesX
deriving DecidableEq, Repr

/-- The input starts with `0x` or `0X`. -/
def startsWith0x (s : CStr) : Bool :=
  match s with
  | c :: x :: _ => c = '0' && (x = 'x' || x = 'X')
  | _ => false

/-- One `%x` conversion under the library `lib`: as `scanHex` when a digit
is read, and as `lib` says for a `0x` without digit. -/
def scanHexWith (lib : BarePrefix) (s : CStr) : Option (Nat × CStr) :=
  let s1 := skipSign (s.dropWhile isSpace)
  let s2 := takeDigits (skipPrefix s1.2)
  if s2.1 = [] then
    if startsWith0x s1.2 then
      match lib with
      | .matchingFailure => none
      | .zeroTakesX => some (0, skipPrefix s1.2)
      | .zeroLeavesX => some (0, s1.2.tail)
    else none
  else some (strtoulValue s1.1 (hexValue s2.1), s2.2)

/-- The values `sscanf` assigns under the library `lib`. -/
def sscanfWith (lib : BarePrefix) : List Directive → CStr → List Nat
  | [], _ => []
  | .lit c :: ds, x :: t => if x = c then sscanfWith lib ds t else []
  | .lit _ :: _, [] => []
  | .hex :: ds, s =>
    match scanHexWith lib s with
    | some (v, r) => v :: sscanfWith lib ds r
    | none => []

/-- The member function `parseMACAddress(macStr)` under the library `lib`. -/
def parseMACAddressWith (lib : BarePrefix) (st : WOLState) (macStr : Option CStr) :
    Bool × WOLState :=
  match macStr with
  | none => (false, st)
  | some s =>
    if s.length < 17 then (false, st)
    else
      let values := sscanfWith lib macFormat s
      if values.length = 6 then
        let tempMAC : MAC := fun i => toUInt8 (values.getD i.val 0)
        (true, { st with targetMAC := tempMAC })
      else (false, st)

/-- The widest shape any of the libraries reads as one `%x` field: white
space, an optional sign, an optional `0x` or `0X`, and hexadecimal digits,
with at least a digit or a prefix. -/
def IsLooseField (f : CStr) : Prop :=
  ∃ ws sign pre digits : CStr,
    f = ws ++ (sign ++ (pre ++ digits)) ∧
    (∀ c ∈ ws, isSpace c = true) ∧
    (sign = [] ∨ sign = ['+'] ∨ sign = ['-']) ∧
    (pre = [] ∨ pre = ['0', 'x'] ∨ pre = ['0', 'X']) ∧
    (∀ c ∈ digits, isHexDigit c = true) ∧
    (digits ≠ [] ∨ pre ≠ [])

/-- The input begins with `n + 1` loose fields separated by colons. -/
def MatchesLooseFields : Nat → CStr → Prop
  | 0, s => ∃ f rest, s = f ++ rest ∧ IsLooseField f
  | n + 1, s => ∃ f t, s = f ++ ':' :: t ∧ IsLooseField f ∧ MatchesLooseFields n t

/-- Six loose fields separated by colons, followed by anything. -/
def MatchesLoosePattern (s : CStr) : Prop := MatchesLooseFields 5 s

/-! # Theorems -/

/-! ## Packet builder -/

theorem fillLoop_length (f : Nat → Byte) (n i : Nat) (p : List Byte) :
    (fillLoop f n i p).length = p.length := by
  induction n generalizing i p with
  | zero => rfl
  | succ n ih => simp [fillLoop, ih]

theorem fillLoop_getElem? (f : Nat → Byte) (n i : Nat) (p : List Byte) (j : Nat) :
    (fillLoop f n i p)[j]? =
      if i ≤ j ∧ j < i + n then (p[j]?).map (fun _ => f j) else p[j]? := by
  induction n generalizing i p with
  | zero =>
    have : ¬ (i ≤ j ∧ j < i) := by omega
    simp [fillLoop, this]
  | succ n ih =>
    rw [fillLoop, ih, List.getElem?_set]
    by_cases h1 : i = j
    · subst h1
      have h2 : ¬ (i + 1 ≤ i ∧ i < i + 1 + n) := by omega
      have h3 : (i ≤ i ∧ i < i + (n + 1)) := by omega
      simp only [h2, h3, if_true, if_false, and_self]
      by_cases h4 : i < p.length
      · simp [h4]
      · simp [h4, List.getElem?_eq_none (Nat.le_of_not_lt h4)]
    · by_cases h5 : i + 1 ≤ j ∧ j < i + 1 + n
      · have h6 : i ≤ j ∧ j < i + (n + 1) := by omega
        simp [h1, h5, h6]
      · have h6 : ¬ (i ≤ j ∧ j < i + (n + 1)) := by omega
        simp [h1, h5, h6]

theorem packet_length (a : MAC) : (packet a).length = 102 := by
  simp [packet, fillLoop_length]

theorem packet_getElem? (a : MAC) (j : Nat) (hj : j < 102) :
    (packet a)[j]? =
      some (if j < 6 then (0xFF : Byte) else a ⟨(j - 6) % 6, Nat.mod_lt _ (by decide)⟩) := by
  simp only [packet, fillLoop_getElem?]
  by_cases h : j < 6
  · have h1 : ¬ (6 ≤ j ∧ j < 6 + 96) := by omega
    have h2 : (0 ≤ j ∧ j < 0 + 6) := by omega
    simp [h, h1, h2, List.getElem?_replicate, hj]
  · have h1 : (6 ≤ j ∧ j < 6 + 96) := by omega
    have h2 : ¬ (0 ≤ j ∧ j < 0 + 6) := by omega
    simp [h, h1, h2, List.getElem?_replicate, hj]

theorem flatten_replicate_getElem? {α : Type} (l : List α) (n k : Nat)
    (hk : k < n * l.length) :
    (List.replicate n l).flatten[k]? = l[k % l.length]? := by
  induction n generalizing k with
  | zero => simp at hk
  | succ n ih =>
    rw [List.replicate_succ, List.flatten_cons]
    by_cases h : k < l.length
    · rw [List.getElem?_append_left h, Nat.mod_eq_of_lt h]
    · have h1 : l.length ≤ k := Nat.le_of_not_lt h
      rw [List.getElem?_append_right h1, ih _ (by rw [Nat.succ_mul] at hk; omega)]
      congr 1
      conv_rhs => rw [← Nat.sub_add_cancel h1]
      simp

/-! ## Broadcast address -/

theorem or_base256 (x y a b : Nat) (ha : a < 256) (hb : b < 256) :
    (256 * x + a) ||| (256 * y + b) = 256 * (x ||| y) + (a ||| b) := by
  have hab : a ||| b < 2 ^ 8 := Nat.or_lt_two_pow (by simpa using ha) (by simpa using hb)
  have h256 : (256 : Nat) = 2 ^ 8 := by norm_num
  apply Nat.eq_of_testBit_eq
  intro j
  rw [h256, Nat.testBit_or, Nat.testBit_mul_pow_two_add _ (by simpa using ha),
    Nat.testBit_mul_pow_two_add _ (by simpa using hb), Nat.testBit_mul_pow_two_add _ hab]
  by_cases hj : j < 8
  · simp [hj]
  · simp [hj]

theorem or_lt_256 (a b : Nat) (ha : a < 256) (hb : b < 256) : a ||| b < 256 := by
  have h : a ||| b < 2 ^ 8 := Nat.or_lt_two_pow (by simpa using ha) (by simpa using hb)
  simpa using h

theorem bitNot32_byte (m : Byte) : bitNot32 m.val % 256 = 255 - m.val := by
  have hm := m.isLt
  simp only [bitNot32, wordSize]
  omega

theorem orNotOctet_val (ip m : Byte) : (orNotOctet ip m).val = ip.val ||| (255 - m.val) := by
  have hip := ip.isLt
  have hm := m.isLt
  have h1 : bitNot32 m.val = 256 * 16777215 + (255 - m.val) := by
    simp only [bitNot32, wordSize]
    omega
  have h2 : ip.val = 256 * 0 + ip.val := by omega
  have h3 := or_lt_256 ip.val (255 - m.val) hip (by omega)
  show (ip.val ||| bitNot32 m.val) % 256 = _
  rw [h1]
  conv_lhs => rw [h2]
  rw [or_base256 _ _ _ _ hip (by omega)]
  omega

theorem toWord_or (a b : IPv4) :
    toWord a ||| toWord b =
      ((a 0).val ||| (b 0).val) + 256 * ((a 1).val ||| (b 1).val) +
        65536 * ((a 2).val ||| (b 2).val) + 16777216 * ((a 3).val ||| (b 3).val) := by
  have e (c : IPv4) : toWord c =
      256 * (256 * (256 * (c 3).val + (c 2).val) + (c 1).val) + (c 0).val := by
    simp only [toWord]
    omega
  rw [e a, e b, or_base256 _ _ _ _ (a 0).isLt (b 0).isLt,
    or_base256 _ _ _ _ (a 1).isLt (b 1).isLt, or_base256 _ _ _ _ (a 2).isLt (b 2).isLt]
  omega

theorem broadcast_other_val (ip m : IPv4) (i : Fin 4) :
    (broadcastAddress .other ip m i).val = (ip i).val ||| (255 - (m i).val) := by
  have h0 := (m 0).isLt
  have h1 := (m 1).isLt
  have h2 := (m 2).isLt
  have h3 := (m 3).isLt
  let m' : IPv4 := fun j => ⟨255 - (m j).val, by omega⟩
  have hnot : bitNot32 (toWord m) = toWord m' := by
    simp only [bitNot32, wordSize, toWord, m']
    omega
  have o0 := or_lt_256 (ip 0).val (255 - (m 0).val) (ip 0).isLt (by omega)
  have o1 := or_lt_256 (ip 1).val (255 - (m 1).val) (ip 1).isLt (by omega)
  have o2 := or_lt_256 (ip 2).val (255 - (m 2).val) (ip 2).isLt (by omega)
  have o3 := or_lt_256 (ip 3).val (255 - (m 3).val) (ip 3).isLt (by omega)
  show (((toWord ip ||| bitNot32 (toWord m)) % wordSize) / 256 ^ i.val) % 256 = _
  rw [hnot, toWord_or]
  simp only [m', wordSize]
  fin_cases i
  · show _ = (ip 0).val ||| (255 - (m 0).val)
    simp only [Fin.val_zero, pow_zero]
    omega
  · show _ = (ip 1).val ||| (255 - (m 1).val)
    norm_num
    omega
  · show _ = (ip 2).val ||| (255 - (m 2).val)
    norm_num
    omega
  · show _ = (ip 3).val ||| (255 - (m 3).val)
    norm_num
    omega

/-! ## Scheduler -/

theorem sendWOLPacket_unset (env : Env) (st : WOLState) (h : macIsSet st.targetMAC = false) :
    sendWOLPacket env st = (st, []) := by
  unfold sendWOLPacket
  cases env.wifiConnected <;> simp [h]

theorem sendWOLPacket_ok (env : Env) (st : WOLState) (hw : env.wifiConnected = true)
    (hm : macIsSet st.targetMAC = true) (ht : env.transportOk = true) :
    sendWOLPacket env st =
      ({ st with lastWOL := env.millis % wordSize },
        [⟨broadcastAddress env.platform env.localIP env.subnetMask, 9, packet st.targetMAC⟩]) := by
  simp only [Env.transportOk, Bool.and_eq_true, beq_iff_eq] at ht
  obtain ⟨⟨hb, hwr⟩, he⟩ := ht
  have htake : List.take 102 (packet st.targetMAC) = packet st.targetMAC :=
    List.take_of_length_le (by rw [packet_length])
  simp [sendWOLPacket, hw, hm, hb, hwr, he, htake]

theorem sendWOLPacket_triggered (env : Env) (st : WOLState) :
    (sendWOLPacket env st).1.triggered = st.triggered := by
  unfold sendWOLPacket
  repeat' split
  all_goals rfl

theorem fire_triggered (env : Env) (t : Trigger) (st : WOLState) (h : st.triggered = true) :
    (fire env t st).1.triggered = true := by
  cases t with
  | connected =>
    simp only [fire, connected]
    repeat' split
    all_goals first | exact h | (rw [sendWOLPacket_triggered])
  | loop =>
    simp only [fire, loop]
    repeat' split
    all_goals first | exact h | (rw [sendWOLPacket_triggered]; exact h)
  | jsonState u =>
    simp only [fire, readFromJsonState]
    repeat' split
    all_goals first | exact h | (rw [sendWOLPacket_triggered])
  | mqtt topic payload =>
    simp only [fire, onMqttMessage]
    repeat' split
    all_goals first | exact h | (rw [sendWOLPacket_triggered])

theorem runAll_triggered (evs : List (Env × Trigger)) (st : WOLState)
    (h : st.triggered = true) : (runAll evs st).triggered = true := by
  induction evs generalizing st with
  | nil => exact h
  | cons e rest ih => exact ih _ (fire_triggered e.1 e.2 st h)

theorem macIsSet_iff (a : MAC) : macIsSet a = true ↔ a ≠ fun _ => 0 := by
  simp only [macIsSet, List.any_eq_true, List.mem_finRange, true_and, bne_iff_ne, ne_eq]
  constructor
  · rintro ⟨i, hi⟩ h
    exact hi (by rw [h])
  · intro h
    by_contra hc
    exact h (funext fun i => by_contra fun hi => hc ⟨i, hi⟩)

/-! ## Characters -/

theorem hexDigitVal_mem (c : Char) (v : Nat) (h : hexDigitVal c = some v) :
    (c, v) ∈ hexTable := by
  have hc : c = Char.ofNat c.toNat := (Char.ofNat_toNat c).symm
  unfold hexDigitVal at h
  generalize hn : c.toNat = n at h hc
  split_ifs at h with h1 h2 h3
  · obtain ⟨ha, hb⟩ := h1
    have hv := Option.some.inj h
    subst hv hc
    interval_cases n <;> decide
  · obtain ⟨ha, hb⟩ := h2
    have hv := Option.some.inj h
    subst hv hc
    interval_cases n <;> decide
  · obtain ⟨ha, hb⟩ := h3
    have hv := Option.some.inj h
    subst hv hc
    interval_cases n <;> decide

theorem hexTable_facts : ∀ p ∈ hexTable,
    p.2 < 16 ∧ isSpace p.1 = false ∧ p.1 ≠ '-' ∧ p.1 ≠ '+' ∧ p.1 ≠ ':' ∧ p.1 ≠ 'x' ∧ p.1 ≠ 'X' ∧
    (Nat.digitChar p.2).toUpper = p.1.toUpper := by
  decide

theorem hexDigitVal_facts (c : Char) (v : Nat) (h : hexDigitVal c = some v) :
    v < 16 ∧ isSpace c = false ∧ c ≠ '-' ∧ c ≠ '+' ∧ c ≠ ':' ∧ c ≠ 'x' ∧ c ≠ 'X' ∧
    (Nat.digitChar v).toUpper = c.toUpper :=
  hexTable_facts (c, v) (hexDigitVal_mem c v h)

theorem hexDigitVal_digitChar : ∀ n : Fin 16,
    hexDigitVal (Nat.digitChar n.val).toUpper = some n.val := by
  decide

set_option maxRecDepth 100000 in
theorem fmt02X_byte : ∀ b : Byte,
    fmt02X b.val = [(Nat.digitChar (b.val / 16)).toUpper, (Nat.digitChar (b.val % 16)).toUpper] := by
  decide

/-! ## The scanner on two-digit groups -/

theorem takeDigits_stop (rest : CStr) (h : ∀ c t, rest = c :: t → hexDigitVal c = none) :
    takeDigits rest = ([], rest) := by
  cases rest with
  | nil => rfl
  | cons c t => simp [takeDigits, h c t rfl]

theorem scanHex_two (h l : Char) (vh vl : Nat) (rest : CStr)
    (hh : hexDigitVal h = some vh) (hl : hexDigitVal l = some vl)
    (hr : ∀ c t, rest = c :: t → hexDigitVal c = none) :
    scanHex (h :: l :: rest) = some (16 * vh + vl, rest) := by
  obtain ⟨h1, h2, h3, h4, -, -, -, -⟩ := hexDigitVal_facts h vh hh
  obtain ⟨l1, -, -, -, -, l6, l7, -⟩ := hexDigitVal_facts l vl hl
  have hd : (h :: l :: rest).dropWhile isSpace = h :: l :: rest := by
    simp [List.dropWhile, h2]
  have hs : skipSign (h :: l :: rest) = (false, h :: l :: rest) := by
    simp [skipSign, h3, h4]
  have hp : skipPrefix (h :: l :: rest) = h :: l :: rest := by
    simp [skipPrefix, l6, l7]
  have ht : takeDigits (h :: l :: rest) = ([vh, vl], rest) := by
    simp [takeDigits, hh, hl, takeDigits_stop rest hr]
  have hv : strtoulValue false (hexValue [vh, vl]) = 16 * vh + vl := by
    have e : hexValue [vh, vl] = 16 * vh + vl := by simp [hexValue]
    rw [e]
    simp only [strtoulValue, wordSize]
    rw [if_neg (by omega)]
    simp
  simp only [scanHex, hd, hs, hp, ht, hv]
  simp

theorem colon_stops (t : CStr) : ∀ c u, (':' :: t) = c :: u → hexDigitVal c = none := by
  intro c u h
  injection h with h1 _
  subst h1
  decide

theorem nil_stops : ∀ (c : Char) (u : CStr), ([] : CStr) = c :: u → hexDigitVal c = none := by
  intro c u h
  cases h

theorem sscanf_pairs (h l : Fin 6 → Char) (vh vl : Fin 6 → Nat)
    (hh : ∀ i, hexDigitVal (h i) = some (vh i)) (hl : ∀ i, hexDigitVal (l i) = some (vl i)) :
    sscanf macFormat
      [h 0, l 0, ':', h 1, l 1, ':', h 2, l 2, ':', h 3, l 3, ':', h 4, l 4, ':', h 5, l 5] =
      [16 * vh 0 + vl 0, 16 * vh 1 + vl 1, 16 * vh 2 + vl 2, 16 * vh 3 + vl 3,
        16 * vh 4 + vl 4, 16 * vh 5 + vl 5] := by
  simp only [macFormat, sscanf,
    scanHex_two _ _ _ _ _ (hh 0) (hl 0) (colon_stops _),
    scanHex_two _ _ _ _ _ (hh 1) (hl 1) (colon_stops _),
    scanHex_two _ _ _ _ _ (hh 2) (hl 2) (colon_stops _),
    scanHex_two _ _ _ _ _ (hh 3) (hl 3) (colon_stops _),
    scanHex_two _ _ _ _ _ (hh 4) (hl 4) (colon_stops _),
    scanHex_two _ _ _ _ _ (hh 5) (hl 5) nil_stops, if_true]

theorem parse_pairs (st : WOLState) (h l : Fin 6 → Char) (vh vl : Fin 6 → Nat)
    (hh : ∀ i, hexDigitVal (h i) = some (vh i)) (hl : ∀ i, hexDigitVal (l i) = some (vl i)) :
    parseMACAddress st (some
      [h 0, l 0, ':', h 1, l 1, ':', h 2, l 2, ':', h 3, l 3, ':', h 4, l 4, ':', h 5, l 5]) =
      (true, { st with targetMAC := fun i => toUInt8 (16 * vh i + vl i) }) := by
  have e : (fun i : Fin 6 => toUInt8 ([16 * vh 0 + vl 0, 16 * vh 1 + vl 1, 16 * vh 2 + vl 2,
      16 * vh 3 + vl 3, 16 * vh 4 + vl 4, 16 * vh 5 + vl 5].getD i.val 0)) =
      fun i => toUInt8 (16 * vh i + vl i) := by
    funext i
    fin_cases i <;> rfl
  simp only [parseMACAddress, sscanf_pairs h l vh vl hh hl, e]
  simp

theorem toUInt8_div_mod (b : Byte) : toUInt8 (16 * (b.val / 16) + b.val % 16) = b := by
  apply Fin.ext
  show (16 * (b.val / 16) + b.val % 16) % 256 = b.val
  have := b.isLt
  omega

theorem getMACString_eq (st : WOLState) :
    getMACString st =
      [(Nat.digitChar ((st.targetMAC 0).val / 16)).toUpper,
       (Nat.digitChar ((st.targetMAC 0).val % 16)).toUpper, ':',
       (Nat.digitChar ((st.targetMAC 1).val / 16)).toUpper,
       (Nat.digitChar ((st.targetMAC 1).val % 16)).toUpper, ':',
       (Nat.digitChar ((st.targetMAC 2).val / 16)).toUpper,
       (Nat.digitChar ((st.targetMAC 2).val % 16)).toUpper, ':',
       (Nat.digitChar ((st.targetMAC 3).val / 16)).toUpper,
       (Nat.digitChar ((st.targetMAC 3).val % 16)).toUpper, ':',
       (Nat.digitChar ((st.targetMAC 4).val / 16)).toUpper,
       (Nat.digitChar ((st.targetMAC 4).val % 16)).toUpper, ':',
       (Nat.digitChar ((st.targetMAC 5).val / 16)).toUpper,
       (Nat.digitChar ((st.targetMAC 5).val % 16)).toUpper] := by
  simp only [getMACString, fmt02X_byte]
  rfl

theorem length_seventeen (s : CStr) (h : s.length = 17) :
    ∃ c0 c1 c2 c3 c4 c5 c6 c7 c8 c9 c10 c11 c12 c13 c14 c15 c16 : Char, s = [c0, c1, c2, c3, c4, c5, c6, c7, c8, c9, c10, c11, c12, c13, c14, c15, c16] := by
  rcases s with _ | ⟨c0, s⟩
  · simp at h
  rcases s with _ | ⟨c1, s⟩
  · simp at h
  rcases s with _ | ⟨c2, s⟩
  · simp at h
  rcases s with _ | ⟨c3, s⟩
  · simp at h
  rcases s with _ | ⟨c4, s⟩
  · simp at h
  rcases s with _ | ⟨c5, s⟩
  · simp at h
  rcases s with _ | ⟨c6, s⟩
  · simp at h
  rcases s with _ | ⟨c7, s⟩
  · simp at h
  rcases s with _ | ⟨c8, s⟩
  · simp at h
  rcases s with _ | ⟨c9, s⟩
  · simp at h
  rcases s with _ | ⟨c10, s⟩
  · simp at h
  rcases s with _ | ⟨c11, s⟩
  · simp at h
  rcases s with _ | ⟨c12, s⟩
  · simp at h
  rcases s with _ | ⟨c13, s⟩
  · simp at h
  rcases s with _ | ⟨c14, s⟩
  · simp at h
  rcases s with _ | ⟨c15, s⟩
  · simp at h
  rcases s with _ | ⟨c16, s⟩
  · simp at h
  rcases s with _ | ⟨c17, s⟩
  · exact ⟨c0, c1, c2, c3, c4, c5, c6, c7, c8, c9, c10, c11, c12, c13, c14, c15, c16, rfl⟩
  · simp at h

theorem isHexDigit_val (c : Char) (h : isHexDigit c = true) : ∃ v, hexDigitVal c = some v :=
  Option.isSome_iff_exists.mp h

theorem canonical_form (s : CStr) (hs : isCanonicalMAC s = true) :
    ∃ (h l : Fin 6 → Char) (vh vl : Fin 6 → Nat),
      s = [h 0, l 0, ':', h 1, l 1, ':', h 2, l 2, ':', h 3, l 3, ':', h 4, l 4, ':', h 5, l 5] ∧
      (∀ i, hexDigitVal (h i) = some (vh i)) ∧ (∀ i, hexDigitVal (l i) = some (vl i)) := by
  simp only [isCanonicalMAC, Bool.and_eq_true, decide_eq_true_eq] at hs
  obtain ⟨hlen, hall⟩ := hs
  obtain ⟨c0, c1, c2, c3, c4, c5, c6, c7, c8, c9, c10, c11, c12, c13, c14, c15, c16, rfl⟩ :=
    length_seventeen s hlen
  simp [List.range_succ] at hall
  obtain ⟨a0, a1, rfl, a3, a4, rfl, a6, a7, rfl, a9, a10, rfl, a12, a13, rfl, a15, a16⟩ := hall
  obtain ⟨v0, e0⟩ := isHexDigit_val _ a0
  obtain ⟨v1, e1⟩ := isHexDigit_val _ a1
  obtain ⟨v3, e3⟩ := isHexDigit_val _ a3
  obtain ⟨v4, e4⟩ := isHexDigit_val _ a4
  obtain ⟨v6, e6⟩ := isHexDigit_val _ a6
  obtain ⟨v7, e7⟩ := isHexDigit_val _ a7
  obtain ⟨v9, e9⟩ := isHexDigit_val _ a9
  obtain ⟨v10, e10⟩ := isHexDigit_val _ a10
  obtain ⟨v12, e12⟩ := isHexDigit_val _ a12
  obtain ⟨v13, e13⟩ := isHexDigit_val _ a13
  obtain ⟨v15, e15⟩ := isHexDigit_val _ a15
  obtain ⟨v16, e16⟩ := isHexDigit_val _ a16
  refine ⟨![c0, c3, c6, c9, c12, c15], ![c1, c4, c7, c10, c13, c16],
    ![v0, v3, v6, v9, v12, v15], ![v1, v4, v7, v10, v13, v16], rfl, ?_, ?_⟩
  · intro i
    fin_cases i
    · exact e0
    · exact e3
    · exact e6
    · exact e9
    · exact e12
    · exact e15
  · intro i
    fin_cases i
    · exact e1
    · exact e4
    · exact e7
    · exact e10
    · exact e13
    · exact e16

theorem format_parsed_pairs (st : WOLState) (h l : Fin 6 → Char) (vh vl : Fin 6 → Nat)
    (hh : ∀ i, hexDigitVal (h i) = some (vh i)) (hl : ∀ i, hexDigitVal (l i) = some (vl i)) :
    getMACString { st with targetMAC := fun i => toUInt8 (16 * vh i + vl i) } =
      [h 0, l 0, ':', h 1, l 1, ':', h 2, l 2, ':', h 3, l 3, ':', h 4, l 4, ':',
        h 5, l 5].map Char.toUpper := by
  have key (i : Fin 6) :
      (Nat.digitChar ((toUInt8 (16 * vh i + vl i)).val / 16)).toUpper = (h i).toUpper ∧
      (Nat.digitChar ((toUInt8 (16 * vh i + vl i)).val % 16)).toUpper = (l i).toUpper := by
    obtain ⟨h1, -, -, -, -, -, -, h8⟩ := hexDigitVal_facts _ _ (hh i)
    obtain ⟨l1, -, -, -, -, -, -, l8⟩ := hexDigitVal_facts _ _ (hl i)
    have e1 : (toUInt8 (16 * vh i + vl i)).val / 16 = vh i := by
      show (16 * vh i + vl i) % 256 / 16 = vh i
      omega
    have e2 : (toUInt8 (16 * vh i + vl i)).val % 16 = vl i := by
      show (16 * vh i + vl i) % 256 % 16 = vl i
      omega
    rw [e1, e2]
    exact ⟨h8, l8⟩
  have hc : Char.toUpper ':' = ':' := by decide
  rw [getMACString_eq]
  simp only [List.map, (key 0).1, (key 0).2, (key 1).1, (key 1).2, (key 2).1, (key 2).2,
    (key 3).1, (key 3).2, (key 4).1, (key 4).2, (key 5).1, (key 5).2, hc]

/-! ## The scanner against the field grammar -/

theorem dropWhile_spaces (ws X : CStr) (hws : ∀ c ∈ ws, isSpace c = true)
    (hX : ∀ c t, X = c :: t → isSpace c = false) : (ws ++ X).dropWhile isSpace = X := by
  induction ws with
  | nil =>
    cases X with
    | nil => rfl
    | cons c t => simp [List.dropWhile, hX c t rfl]
  | cons w ws ih =>
    have hw : isSpace w = true := hws w (List.mem_cons_self _ _)
    simp only [List.cons_append, List.dropWhile, hw]
    exact ih fun c hc => hws c (List.mem_cons_of_mem _ hc)

theorem takeDigits_append (digits rest : CStr) (hd : ∀ c ∈ digits, isHexDigit c = true) :
    (takeDigits (digits ++ rest)).2 = (takeDigits rest).2 ∧
    (digits ≠ [] → (takeDigits (digits ++ rest)).1 ≠ []) := by
  induction digits with
  | nil => exact ⟨rfl, fun h => absurd rfl h⟩
  | cons d ds ih =>
    obtain ⟨v, hv⟩ := isHexDigit_val d (hd d (List.mem_cons_self _ _))
    have ih' := ih fun c hc => hd c (List.mem_cons_of_mem _ hc)
    simp only [List.cons_append, takeDigits, hv]
    exact ⟨ih'.1, fun _ => List.cons_ne_nil _ _⟩

theorem takeDigits_sound (s : CStr) :
    ∃ digits : CStr, s = digits ++ (takeDigits s).2 ∧
      (∀ c ∈ digits, isHexDigit c = true) ∧
      ((takeDigits s).1 ≠ [] → digits ≠ []) := by
  induction s with
  | nil => exact ⟨[], rfl, fun c hc => absurd hc (List.not_mem_nil c), fun h => absurd rfl h⟩
  | cons c t ih =>
    obtain ⟨ds, h1, h2, -⟩ := ih
    cases hv : hexDigitVal c with
    | none =>
      refine ⟨[], ?_, fun c hc => absurd hc (List.not_mem_nil c), ?_⟩
      · simp [takeDigits, hv]
      · simp [takeDigits, hv]
    | some v =>
      refine ⟨c :: ds, ?_, ?_, fun _ => List.cons_ne_nil _ _⟩
      · simp only [takeDigits, hv, List.cons_append]
        rw [← h1]
      · intro x hx
        rcases List.mem_cons.mp hx with rfl | hx
        · simp [isHexDigit, hv]
        · exact h2 x hx

theorem skipSign_cases (s : CStr) :
    (∃ t, s = '-' :: t ∧ skipSign s = (true, t)) ∨
    (∃ t, s = '+' :: t ∧ skipSign s = (false, t)) ∨
    skipSign s = (false, s) := by
  cases s with
  | nil => exact Or.inr (Or.inr rfl)
  | cons c t =>
    by_cases h1 : c = '-'
    · subst h1
      exact Or.inl ⟨t, rfl, by simp [skipSign]⟩
    · by_cases h2 : c = '+'
      · subst h2
        exact Or.inr (Or.inl ⟨t, rfl, by simp [skipSign]⟩)
      · exact Or.inr (Or.inr (by simp [skipSign, h1, h2]))

theorem skipPrefix_cases (s : CStr) :
    (∃ x t, s = '0' :: x :: t ∧ (x = 'x' ∨ x = 'X') ∧ skipPrefix s = t) ∨
    (skipPrefix s = s ∧ ∀ x t, s = '0' :: x :: t → x ≠ 'x' ∧ x ≠ 'X') := by
  match s with
  | [] => exact Or.inr ⟨rfl, fun x t h => by cases h⟩
  | [c] => exact Or.inr ⟨rfl, fun x t h => by cases h⟩
  | c :: x :: t =>
    by_cases h : c = '0' ∧ (x = 'x' ∨ x = 'X')
    · obtain ⟨rfl, hx⟩ := h
      exact Or.inl ⟨x, t, rfl, hx, by simp [skipPrefix, hx]⟩
    · refine Or.inr ⟨by simp only [skipPrefix, h, if_false], fun y u hyu => ?_⟩
      injection hyu with e1 e2
      injection e2 with e2 e3
      subst e1 e2
      constructor
      · intro hy
        exact h ⟨rfl, Or.inl hy⟩
      · intro hy
        exact h ⟨rfl, Or.inr hy⟩

theorem scanHex_sound (s : CStr) (v : Nat) (r : CStr) (h : scanHex s = some (v, r)) :
    ∃ f, s = f ++ r ∧ IsHexField f r := by
  have hsplit : s = s.takeWhile isSpace ++ s.dropWhile isSpace :=
    (List.takeWhile_append_dropWhile isSpace s).symm
  have hws : ∀ c ∈ s.takeWhile isSpace, isSpace c = true := fun c hc => List.mem_takeWhile_imp hc
  generalize s.takeWhile isSpace = ws at hsplit hws
  simp only [scanHex] at h
  generalize s.dropWhile isSpace = s1 at hsplit h
  have key : ∀ (sign s2 : CStr) (neg : Bool), s1 = sign ++ s2 → skipSign s1 = (neg, s2) →
      (sign = [] ∨ sign = ['+'] ∨ sign = ['-']) → ∃ f, s = f ++ r ∧ IsHexField f r := by
    intro sign s2 neg e1 e2 hsign
    rw [e2] at h
    simp only at h
    have key2 : ∀ (pre s3 : CStr), s2 = pre ++ s3 → skipPrefix s2 = s3 →
        (pre = [] ∨ pre = ['0', 'x'] ∨ pre = ['0', 'X']) →
        (pre = [] → ∀ x t, s2 = '0' :: x :: t → x ≠ 'x' ∧ x ≠ 'X') →
        ∃ f, s = f ++ r ∧ IsHexField f r := by
      intro pre s3 e3 e4 hpre hcl
      rw [e4] at h
      obtain ⟨digits, d1, d2, d3⟩ := takeDigits_sound s3
      by_cases hne : (takeDigits s3).1 = []
      · simp [hne] at h
      · simp only [hne, if_false, Option.some.injEq, Prod.mk.injEq] at h
        obtain ⟨-, hr⟩ := h
        rw [hr] at d1
        refine ⟨ws ++ (sign ++ (pre ++ digits)), ?_, ws, sign, pre, digits, rfl, hws, hsign, hpre,
          d3 hne, d2, ?_⟩
        · rw [hsplit, e1, e3, d1]
          simp
        · intro hp hd x t hx
          subst hp hd hx
          exact hcl rfl x t (by rw [e3, d1]; rfl)
    rcases skipPrefix_cases s2 with ⟨x, t, e, hx, ht⟩ | ⟨e, hcl⟩
    · rcases hx with rfl | rfl
      · exact key2 ['0', 'x'] t e ht (Or.inr (Or.inl rfl)) (fun hp => by cases hp)
      · exact key2 ['0', 'X'] t e ht (Or.inr (Or.inr rfl)) (fun hp => by cases hp)
    · exact key2 [] s2 rfl e (Or.inl rfl) (fun _ => hcl)
  rcases skipSign_cases s1 with ⟨t, e, ht⟩ | ⟨t, e, ht⟩ | e
  · exact key ['-'] t true e ht (Or.inr (Or.inr rfl))
  · exact key ['+'] t false e ht (Or.inr (Or.inl rfl))
  · exact key [] s1 false rfl e (Or.inl rfl)

theorem scanHex_complete (f rest : CStr) (h : IsHexField f rest) :
    ∃ v, scanHex (f ++ rest) = some (v, (takeDigits rest).2) := by
  obtain ⟨ws, sign, pre, digits, rfl, hws, hsign, hpre, hne, hdig, hcl⟩ := h
  obtain ⟨d, ds, rfl⟩ := List.exists_cons_of_ne_nil hne
  obtain ⟨vd, hvd⟩ := isHexDigit_val d (hdig d (List.mem_cons_self _ _))
  obtain ⟨-, d2, d3, d4, -, d6, d7, -⟩ := hexDigitVal_facts d vd hvd
  have z2 : isSpace '0' = false := by decide
  -- the prefix
  have hpfx : skipPrefix (pre ++ (d :: ds ++ rest)) = d :: ds ++ rest := by
    rcases hpre with rfl | rfl | rfl
    · cases ds with
      | nil =>
        cases rest with
        | nil => rfl
        | cons x t =>
          by_cases h0 : d = '0'
          · subst h0
            have := hcl rfl rfl x t rfl
            simp [skipPrefix, this.1, this.2]
          · simp [skipPrefix, h0]
      | cons e ds' =>
        obtain ⟨ve, hve⟩ := isHexDigit_val e
          (hdig e (List.mem_cons_of_mem _ (List.mem_cons_self _ _)))
        obtain ⟨-, -, -, -, -, e6, e7, -⟩ := hexDigitVal_facts e ve hve
        simp [skipPrefix, e6, e7]
    · simp [skipPrefix]
    · simp [skipPrefix]
  -- the head of what follows the sign is a digit
  obtain ⟨y, ys, hy, y2, y3, y4⟩ : ∃ y ys, pre ++ (d :: ds ++ rest) = y :: ys ∧
      isSpace y = false ∧ y ≠ '-' ∧ y ≠ '+' := by
    rcases hpre with rfl | rfl | rfl
    · exact ⟨d, ds ++ rest, rfl, d2, d3, d4⟩
    · exact ⟨'0', _, rfl, z2, by decide, by decide⟩
    · exact ⟨'0', _, rfl, z2, by decide, by decide⟩
  have hsgn : (skipSign (sign ++ (pre ++ (d :: ds ++ rest)))).2 = pre ++ (d :: ds ++ rest) := by
    rcases hsign with rfl | rfl | rfl
    · rw [List.nil_append, hy]
      simp [skipSign, y3, y4]
    · simp [skipSign]
    · simp [skipSign]
  have hdrop : (ws ++ (sign ++ (pre ++ (d :: ds ++ rest)))).dropWhile isSpace =
      sign ++ (pre ++ (d :: ds ++ rest)) := by
    apply dropWhile_spaces _ _ hws
    intro c t hc
    rcases hsign with rfl | rfl | rfl
    · rw [List.nil_append, hy] at hc
      injection hc with hc _
      rw [← hc]
      exact y2
    · injection hc with hc _
      rw [← hc]
      decide
    · injection hc with hc _
      rw [← hc]
      decide
  have htd := takeDigits_append (d :: ds) rest hdig
  have e : ws ++ (sign ++ (pre ++ (d :: ds))) ++ rest =
      ws ++ (sign ++ (pre ++ (d :: ds ++ rest))) := by simp
  simp only [scanHex, e, hdrop, hsgn, hpfx, htd.1, htd.2 (List.cons_ne_nil _ _), if_false]
  exact ⟨_, rfl⟩

theorem macFormat_eq : macFormat = hexFields 5 := rfl

theorem sscanf_hexFields (n : Nat) (s : CStr) :
    (sscanf (hexFields n) s).length = n + 1 ↔ MatchesFields n s := by
  induction n generalizing s with
  | zero =>
    simp only [hexFields, sscanf, MatchesFields]
    constructor
    · intro h
      cases hs : scanHex s with
      | none => simp [hs] at h
      | some p =>
        obtain ⟨v, r⟩ := p
        obtain ⟨f, e, hf⟩ := scanHex_sound s v r hs
        exact ⟨f, r, e, hf⟩
    · rintro ⟨f, rest, rfl, hf⟩
      obtain ⟨v, hv⟩ := scanHex_complete f rest hf
      simp [hv]
  | succ n ih =>
    simp only [hexFields, MatchesFields]
    constructor
    · intro h
      cases hs : scanHex s with
      | none => simp [sscanf, hs] at h
      | some p =>
        obtain ⟨v, r⟩ := p
        obtain ⟨f, e, hf⟩ := scanHex_sound s v r hs
        cases r with
        | nil => simp [sscanf, hs] at h
        | cons x t =>
          by_cases hx : x = ':'
          · subst hx
            simp only [sscanf, hs, if_true, List.length_cons, Nat.add_right_cancel_iff] at h
            exact ⟨f, t, e, hf, (ih t).1 h⟩
          · simp [sscanf, hs, hx] at h
    · rintro ⟨f, t, rfl, hf, hm⟩
      obtain ⟨v, hv⟩ := scanHex_complete f (':' :: t) hf
      rw [takeDigits_stop _ (colon_stops t)] at hv
      simp only [sscanf, hv, if_true, List.length_cons, Nat.add_right_cancel_iff]
      exact (ih t).2 hm

/-! ## Scheduler: frames and the timeout -/

theorem sendWOLPacket_frame (env : Env) (st : WOLState) :
    (sendWOLPacket env st).1 = { st with lastWOL := (sendWOLPacket env st).1.lastWOL } := by
  unfold sendWOLPacket
  repeat' split
  all_goals rfl

theorem sendWOLPacket_incomplete (env : Env) (st : WOLState)
    (h : sendCompletes env st = false) : (sendWOLPacket env st).1 = st := by
  unfold sendCompletes at h
  unfold sendWOLPacket
  cases hw : env.wifiConnected
  · simp
  · cases hm : macIsSet st.targetMAC
    · simp
    · cases hb : env.beginPacketOk
      · simp
      · cases he : env.endPacketOk
        · simp
        · by_cases hn : env.written = 102
          · simp [hw, hm, hb, he, hn] at h
          · simp [hn]

theorem sendWOLPacket_complete (env : Env) (st : WOLState)
    (h : sendCompletes env st = true) :
    sendWOLPacket env st =
      ({ st with lastWOL := env.millis % wordSize },
        [⟨broadcastAddress env.platform env.localIP env.subnetMask, 9, packet st.targetMAC⟩]) := by
  simp only [sendCompletes, Bool.and_eq_true, beq_iff_eq] at h
  obtain ⟨⟨⟨⟨hw, hm⟩, hb⟩, hn⟩, he⟩ := h
  exact sendWOLPacket_ok env st hw hm (by simp [Env.transportOk, hb, hn, he])

theorem retryDue_past_timeout (env : Env) (st : WOLState)
    (h : st.timeoutDuration < env.millis) : retryDue env st = false := by
  have h' : ¬ env.millis ≤ st.timeoutDuration := Nat.not_le.mpr h
  simp [retryDue, h']

theorem loop_past_timeout (env : Env) (st : WOLState)
    (h : st.timeoutDuration < env.millis) : loop env st = (st, []) := by
  unfold loop
  split
  · rfl
  · simp [retryDue_past_timeout env st h]

theorem loop_disabled (env : Env) (st : WOLState) (h : st.enabled = false) :
    loop env st = (st, []) := by
  simp [loop, h]

theorem connected_triggered (env : Env) (st : WOLState) (h : st.triggered = true) :
    connected env st = (st, []) := by
  unfold connected
  split
  · rfl
  · simp [h]

theorem connected_timeoutDuration (env : Env) (st : WOLState) :
    (connected env st).1.timeoutDuration = st.timeoutDuration := by
  unfold connected
  repeat' split
  · rfl
  · rw [sendWOLPacket_frame]
  · rfl

/-! ## Configuration reads -/

theorem parseMACAddress_cases (st : WOLState) (s : CStr) :
    parseMACAddress st (some s) = (false, st) ∨
    parseMACAddress st (some s) =
      (true, { st with targetMAC := fun i => toUInt8 ((sscanf macFormat s).getD i.val 0) }) := by
  by_cases h17 : s.length < 17
  · exact Or.inl (by simp [parseMACAddress, h17])
  · by_cases h6 : (sscanf macFormat s).length = 6
    · exact Or.inr (by simp [parseMACAddress, h17, h6])
    · exact Or.inl (by simp [parseMACAddress, h17, h6])

theorem parseMACAddress_fst_indep (st st0 : WOLState) (s : CStr) :
    (parseMACAddress st (some s)).1 = (parseMACAddress st0 (some s)).1 := by
  by_cases h17 : s.length < 17
  · simp [parseMACAddress, h17]
  · by_cases h6 : (sscanf macFormat s).length = 6
    · simp [parseMACAddress, h17, h6]
    · simp [parseMACAddress, h17, h6]

theorem parseMACAddress_frame (st : WOLState) (s : CStr) :
    (parseMACAddress st (some s)).2 =
      { st with targetMAC := (parseMACAddress st (some s)).2.targetMAC } := by
  rcases parseMACAddress_cases st s with h | h <;> rw [h]

theorem parseMACAddress_fail (st : WOLState) (s : CStr)
    (h : (parseMACAddress st (some s)).1 = false) : (parseMACAddress st (some s)).2 = st := by
  rcases parseMACAddress_cases st s with h1 | h1
  · rw [h1]
  · rw [h1] at h
    cases h

theorem readFromConfig_snd (root : Option ConfigObject) (st : WOLState) :
    (readFromConfig root st).2 =
      { enabled := (root.getD ConfigObject.empty).enabled.getD st.enabled
        initDone := st.initDone
        triggered := st.triggered
        lastWOL := st.lastWOL
        retryDelay := mulU32 ((root.getD ConfigObject.empty).retryDelay.getD (st.retryDelay / 1000)) 1000
        timeoutDuration :=
          mulU32 ((root.getD ConfigObject.empty).timeoutDuration.getD (st.timeoutDuration / 1000)) 1000
        sendOnWifiConnect := (root.getD ConfigObject.empty).sendOnWifiConnect.getD st.sendOnWifiConnect
        periodicRetry := (root.getD ConfigObject.empty).periodicRetry.getD st.periodicRetry
        targetMAC := (parseMACAddress { st with
          enabled := (root.getD ConfigObject.empty).enabled.getD st.enabled }
            (some ((root.getD ConfigObject.empty).targetMAC.getD (getMACString st)))).2.targetMAC } := by
  have hg {α : Type} (o : Option α) (d : α) : (getJsonValue o d).2 = o.getD d := by
    cases o <;> rfl
  have hm (b : Bool) : getMACString { st with enabled := b } = getMACString st := rfl
  simp only [readFromConfig, hg, hm]
  generalize (root.getD ConfigObject.empty).targetMAC.getD (getMACString st) = macString
  generalize (root.getD ConfigObject.empty).enabled.getD st.enabled = en
  rcases parseMACAddress_cases { st with enabled := en } macString with h | h <;> rw [h]

theorem readFromConfig_fst (root : Option ConfigObject) (st : WOLState) :
    (readFromConfig root st).1 =
      (root.isSome && (root.getD ConfigObject.empty).enabled.isSome &&
        (root.getD ConfigObject.empty).sendOnWifiConnect.isSome &&
        (root.getD ConfigObject.empty).periodicRetry.isSome) := by
  have hg {α : Type} (o : Option α) (d : α) : (getJsonValue o d).1 = o.isSome := by
    cases o <;> rfl
  simp only [readFromConfig, hg]

theorem wordSize_eq : wordSize = 4294967296 := by
  norm_num [wordSize]

theorem mulU32_small (s : Nat) (h : s * 1000 < wordSize) : mulU32 s 1000 = s * 1000 := by
  rw [wordSize_eq] at h
  unfold mulU32
  rw [wordSize_eq, Nat.mod_eq_of_lt (show s < 4294967296 by omega),
    Nat.mod_eq_of_lt (show 1000 < 4294967296 by norm_num), Nat.mod_eq_of_lt h]

theorem mulU32_div (r : Nat) (hr : r < wordSize) :
    mulU32 (r / 1000) 1000 = r / 1000 * 1000 := by
  apply mulU32_small
  rw [wordSize_eq] at *
  omega

/-! ## The values the scanner stores -/

theorem takeDigits_append_fst (digits rest : CStr) (hd : ∀ c ∈ digits, isHexDigit c = true) :
    (takeDigits (digits ++ rest)).1 = digits.filterMap hexDigitVal ++ (takeDigits rest).1 := by
  induction digits with
  | nil => rfl
  | cons d ds ih =>
    obtain ⟨v, hv⟩ := isHexDigit_val d (hd d (List.mem_cons_self _ _))
    have ih' := ih fun c hc => hd c (List.mem_cons_of_mem _ hc)
    simp only [List.cons_append, takeDigits, hv, List.filterMap_cons]
    exact congrArg (fun l => v :: l) ih'

theorem scanHex_group (g : HexGroup) (rest : CStr) (hwf : g.WellFormed)
    (hcl : g.pre = [] → g.digits = ['0'] → ∀ x t, rest = x :: t → x ≠ 'x' ∧ x ≠ 'X')
    (hrest : ∀ c t, rest = c :: t → hexDigitVal c = none) :
    scanHex (g.text ++ rest) =
      some (strtoulValue (decide (g.sign = ['-'])) g.magnitude, rest) := by
  obtain ⟨ws, sign, pre, digits⟩ := g
  simp only [HexGroup.WellFormed, HexGroup.text, HexGroup.magnitude] at *
  obtain ⟨hws, hsign, hpre, hne, hdig⟩ := hwf
  obtain ⟨d, ds, rfl⟩ := List.exists_cons_of_ne_nil hne
  obtain ⟨vd, hvd⟩ := isHexDigit_val d (hdig d (List.mem_cons_self _ _))
  obtain ⟨-, d2, d3, d4, -, d6, d7, -⟩ := hexDigitVal_facts d vd hvd
  have z2 : isSpace '0' = false := by decide
  have hpfx : skipPrefix (pre ++ (d :: ds ++ rest)) = d :: ds ++ rest := by
    rcases hpre with rfl | rfl | rfl
    · cases ds with
      | nil =>
        cases rest with
        | nil => rfl
        | cons x t =>
          by_cases h0 : d = '0'
          · subst h0
            have := hcl rfl rfl x t rfl
            simp [skipPrefix, this.1, this.2]
          · simp [skipPrefix, h0]
      | cons e ds' =>
        obtain ⟨ve, hve⟩ := isHexDigit_val e
          (hdig e (List.mem_cons_of_mem _ (List.mem_cons_self _ _)))
        obtain ⟨-, -, -, -, -, e6, e7, -⟩ := hexDigitVal_facts e ve hve
        simp [skipPrefix, e6, e7]
    · simp [skipPrefix]
    · simp [skipPrefix]
  obtain ⟨y, ys, hy, y2, y3, y4⟩ : ∃ y ys, pre ++ (d :: ds ++ rest) = y :: ys ∧
      isSpace y = false ∧ y ≠ '-' ∧ y ≠ '+' := by
    rcases hpre with rfl | rfl | rfl
    · exact ⟨d, ds ++ rest, rfl, d2, d3, d4⟩
    · exact ⟨'0', _, rfl, z2, by decide, by decide⟩
    · exact ⟨'0', _, rfl, z2, by decide, by decide⟩
  have hsgn : skipSign (sign ++ (pre ++ (d :: ds ++ rest))) =
      (decide (sign = ['-']), pre ++ (d :: ds ++ rest)) := by
    rcases hsign with rfl | rfl | rfl
    · rw [List.nil_append, hy]
      simp [skipSign, y3, y4]
    · simp [skipSign]
    · simp [skipSign]
  have hdrop : (ws ++ (sign ++ (pre ++ (d :: ds ++ rest)))).dropWhile isSpace =
      sign ++ (pre ++ (d :: ds ++ rest)) := by
    apply dropWhile_spaces _ _ hws
    intro c t hc
    rcases hsign with rfl | rfl | rfl
    · rw [List.nil_append, hy] at hc
      injection hc with hc _
      rw [← hc]
      exact y2
    · injection hc with hc _
      rw [← hc]
      decide
    · injection hc with hc _
      rw [← hc]
      decide
  have htd1 := takeDigits_append_fst (d :: ds) rest hdig
  have htd2 := (takeDigits_append (d :: ds) rest hdig).1
  rw [takeDigits_stop rest hrest] at htd1 htd2
  have hne' : (takeDigits (d :: ds ++ rest)).1 ≠ [] :=
    (takeDigits_append (d :: ds) rest hdig).2 (List.cons_ne_nil _ _)
  have e : ws ++ (sign ++ (pre ++ (d :: ds))) ++ rest =
      ws ++ (sign ++ (pre ++ (d :: ds ++ rest))) := by simp
  simp only [scanHex, e, hdrop, hsgn, hpfx, hne', if_false, htd2]
  rw [htd1, List.append_nil]

theorem toUInt8_strtoulValue (neg : Bool) (m : Nat) (hm : m < wordSize) :
    (toUInt8 (strtoulValue neg m)).val =
      ((if neg = true then -(m : Int) else (m : Int)) % 256).toNat := by
  rw [wordSize_eq] at hm
  show strtoulValue neg m % 256 = _
  unfold strtoulValue
  rw [wordSize_eq, if_neg (by omega)]
  cases neg
  · simp only [Bool.false_eq_true, if_false]
    omega
  · simp only [if_true]
    omega

theorem sscanf_groups (g : Fin 6 → HexGroup) (rest : CStr) (hwf : ∀ i, (g i).WellFormed)
    (hcl : (g 5).pre = [] → (g 5).digits = ['0'] → ∀ x t, rest = x :: t → x ≠ 'x' ∧ x ≠ 'X')
    (hrest : ∀ c t, rest = c :: t → hexDigitVal c = none) :
    sscanf macFormat (macText g rest) =
      [strtoulValue (decide ((g 0).sign = ['-'])) (g 0).magnitude,
       strtoulValue (decide ((g 1).sign = ['-'])) (g 1).magnitude,
       strtoulValue (decide ((g 2).sign = ['-'])) (g 2).magnitude,
       strtoulValue (decide ((g 3).sign = ['-'])) (g 3).magnitude,
       strtoulValue (decide ((g 4).sign = ['-'])) (g 4).magnitude,
       strtoulValue (decide ((g 5).sign = ['-'])) (g 5).magnitude] := by
  have hc (t : CStr) : ∀ x u, (':' :: t) = x :: u → x ≠ 'x' ∧ x ≠ 'X' := by
    intro x u h
    injection h with h1 _
    subst h1
    exact ⟨by decide, by decide⟩
  simp only [macText, macFormat, sscanf,
    scanHex_group (g 0) _ (hwf 0) (fun _ _ => hc _) (colon_stops _),
    scanHex_group (g 1) _ (hwf 1) (fun _ _ => hc _) (colon_stops _),
    scanHex_group (g 2) _ (hwf 2) (fun _ _ => hc _) (colon_stops _),
    scanHex_group (g 3) _ (hwf 3) (fun _ _ => hc _) (colon_stops _),
    scanHex_group (g 4) _ (hwf 4) (fun _ _ => hc _) (colon_stops _),
    scanHex_group (g 5) rest (hwf 5) hcl hrest, if_true]

/-! ## The scanner over the C libraries -/

theorem scanHexWith_of_scanHex (lib : BarePrefix) (s : CStr) (r : Nat × CStr)
    (h : scanHex s = some r) : scanHexWith lib s = some r := by
  simp only [scanHex] at h
  simp only [scanHexWith]
  by_cases hd : (takeDigits (skipPrefix (skipSign (s.dropWhile isSpace)).2)).1 = []
  · simp [hd] at h
  · simp only [hd, if_false] at h ⊢
    exact h

theorem scanHexWith_matchingFailure (s : CStr) :
    scanHexWith .matchingFailure s = scanHex s := by
  simp only [scanHex, scanHexWith]
  by_cases hd : (takeDigits (skipPrefix (skipSign (s.dropWhile isSpace)).2)).1 = []
  · simp [hd]
  · simp [hd]

theorem sscanfWith_matchingFailure (ds : List Directive) (s : CStr) :
    sscanfWith .matchingFailure ds s = sscanf ds s := by
  induction ds generalizing s with
  | nil => simp [sscanfWith, sscanf]
  | cons d ds ih =>
    cases d with
    | hex =>
      simp only [sscanfWith, sscanf, scanHexWith_matchingFailure]
      cases scanHex s with
      | none => rfl
      | some p => simp [ih]
    | lit c =>
      cases s with
      | nil => simp [sscanfWith, sscanf]
      | cons x t => simp [sscanfWith, sscanf, ih]

theorem sscanfWith_of_full (lib : BarePrefix) (n : Nat) (s : CStr)
    (h : (sscanf (hexFields n) s).length = n + 1) :
    sscanfWith lib (hexFields n) s = sscanf (hexFields n) s := by
  induction n generalizing s with
  | zero =>
    simp only [hexFields, sscanf] at h ⊢
    cases hs : scanHex s with
    | none => simp [hs] at h
    | some p => simp [sscanfWith, sscanf, scanHexWith_of_scanHex lib s p hs]
  | succ n ih =>
    simp only [hexFields] at h ⊢
    cases hs : scanHex s with
    | none => simp [sscanf, hs] at h
    | some p =>
      obtain ⟨v, r⟩ := p
      cases r with
      | nil => simp [sscanf, hs] at h
      | cons x t =>
        by_cases hx : x = ':'
        · subst hx
          simp only [sscanf, hs, if_true, List.length_cons, Nat.add_right_cancel_iff] at h
          simp only [sscanfWith, sscanf, scanHexWith_of_scanHex lib s _ hs, hs, if_true, ih t h]
        · simp [sscanf, hs, hx] at h

theorem parseMACAddressWith_matchingFailure (st : WOLState) (macStr : Option CStr) :
    parseMACAddressWith .matchingFailure st macStr = parseMACAddress st macStr := by
  cases macStr with
  | none => rfl
  | some s => simp only [parseMACAddressWith, parseMACAddress, sscanfWith_matchingFailure]

theorem parseMACAddressWith_of_success (lib : BarePrefix) (st : WOLState)
    (macStr : Option CStr) (h : (parseMACAddress st macStr).1 = true) :
    parseMACAddressWith lib st macStr = parseMACAddress st macStr := by
  cases macStr with
  | none => rfl
  | some s =>
    by_cases h17 : s.length < 17
    · simp [parseMACAddress, h17] at h
    · by_cases h6 : (sscanf macFormat s).length = 6
      · have e : sscanfWith lib macFormat s = sscanf macFormat s := by
          rw [macFormat_eq] at h6 ⊢
          exact sscanfWith_of_full lib 5 s h6
        simp only [parseMACAddressWith, parseMACAddress, e]
      · simp [parseMACAddress, h17, h6] at h

theorem startsWith0x_cases (s : CStr) (h : startsWith0x s = true) :
    ∃ x t, s = '0' :: x :: t ∧ (x = 'x' ∨ x = 'X') := by
  match s with
  | [] => simp [startsWith0x] at h
  | [c] => simp [startsWith0x] at h
  | c :: x :: t =>
    simp only [startsWith0x, Bool.and_eq_true, Bool.or_eq_true, decide_eq_true_eq] at h
    obtain ⟨rfl, hx⟩ := h
    exact ⟨x, t, rfl, hx⟩

theorem isLooseField_of_isHexField (f rest : CStr) (h : IsHexField f rest) : IsLooseField f := by
  obtain ⟨ws, sign, pre, digits, hf, hws, hsign, hpre, hne, hdig, -⟩ := h
  exact ⟨ws, sign, pre, digits, hf, hws, hsign, hpre, hdig, Or.inl hne⟩

theorem scanHexWith_sound (lib : BarePrefix) (s : CStr) (v : Nat) (r : CStr)
    (h : scanHexWith lib s = some (v, r)) : ∃ f, s = f ++ r ∧ IsLooseField f := by
  cases hs : scanHex s with
  | some p =>
    rw [scanHexWith_of_scanHex lib s p hs] at h
    injection h with h
    subst h
    obtain ⟨f, e, hf⟩ := scanHex_sound s v r hs
    exact ⟨f, e, isLooseField_of_isHexField f r hf⟩
  | none =>
    have hsplit : s = s.takeWhile isSpace ++ s.dropWhile isSpace :=
      (List.takeWhile_append_dropWhile isSpace s).symm
    have hws : ∀ c ∈ s.takeWhile isSpace, isSpace c = true :=
      fun c hc => List.mem_takeWhile_imp hc
    generalize s.takeWhile isSpace = ws at hsplit hws
    simp only [scanHex] at hs
    simp only [scanHexWith] at h
    generalize s.dropWhile isSpace = s1 at hsplit h hs
    have hd : (takeDigits (skipPrefix (skipSign s1).2)).1 = [] := by
      by_contra hc
      simp [hc] at hs
    simp only [hd, if_true] at h
    have key : ∀ (sign s2 : CStr), s1 = sign ++ s2 → (skipSign s1).2 = s2 →
        (sign = [] ∨ sign = ['+'] ∨ sign = ['-']) → ∃ f, s = f ++ r ∧ IsLooseField f := by
      intro sign s2 e1 e2 hsign
      rw [e2] at h
      by_cases h0 : startsWith0x s2 = true
      · obtain ⟨x, t, rfl, hx⟩ := startsWith0x_cases s2 h0
        have hpre : ([] : CStr) = [] ∨ ['0', x] = ['0', 'x'] ∨ ['0', x] = ['0', 'X'] := by
          rcases hx with rfl | rfl
          · exact Or.inr (Or.inl rfl)
          · exact Or.inr (Or.inr rfl)
        have hsk : skipPrefix ('0' :: x :: t) = t := by
          simp [skipPrefix, hx]
        simp only [h0, if_true, hsk, List.tail_cons] at h
        cases lib with
        | matchingFailure => cases h
        | zeroTakesX =>
          simp only [Option.some.injEq, Prod.mk.injEq] at h
          obtain ⟨-, rfl⟩ := h
          refine ⟨ws ++ (sign ++ (['0', x] ++ [])), ?_, ws, sign, ['0', x], [], rfl, hws, hsign,
            ?_, fun c hc => absurd hc (List.not_mem_nil c), Or.inr (List.cons_ne_nil _ _)⟩
          · rw [hsplit, e1]
            simp
          · rcases hx with rfl | rfl
            · exact Or.inr (Or.inl rfl)
            · exact Or.inr (Or.inr rfl)
        | zeroLeavesX =>
          simp only [Option.some.injEq, Prod.mk.injEq] at h
          obtain ⟨-, rfl⟩ := h
          refine ⟨ws ++ (sign ++ ([] ++ ['0'])), ?_, ws, sign, [], ['0'], rfl, hws, hsign,
            Or.inl rfl, ?_, Or.inl (List.cons_ne_nil _ _)⟩
          · rw [hsplit, e1]
            simp
          · intro c hc
            rw [List.mem_singleton] at hc
            subst hc
            decide
      · simp [h0] at h
    rcases skipSign_cases s1 with ⟨t, e, ht⟩ | ⟨t, e, ht⟩ | e
    · exact key ['-'] t e (by rw [ht]) (Or.inr (Or.inr rfl))
    · exact key ['+'] t e (by rw [ht]) (Or.inr (Or.inl rfl))
    · exact key [] s1 rfl (by rw [e]) (Or.inl rfl)

theorem sscanfWith_loose (lib : BarePrefix) (n : Nat) (s : CStr)
    (h : (sscanfWith lib (hexFields n) s).length = n + 1) : MatchesLooseFields n s := by
  induction n generalizing s with
  | zero =>
    simp only [hexFields, sscanfWith] at h
    cases hs : scanHexWith lib s with
    | none => simp [hs] at h
    | some p =>
      obtain ⟨v, r⟩ := p
      obtain ⟨f, e, hf⟩ := scanHexWith_sound lib s v r hs
      exact ⟨f, r, e, hf⟩
  | succ n ih =>
    simp only [hexFields] at h
    cases hs : scanHexWith lib s with
    | none => simp [sscanfWith, hs] at h
    | some p =>
      obtain ⟨v, r⟩ := p
      obtain ⟨f, e, hf⟩ := scanHexWith_sound lib s v r hs
      cases r with
      | nil => simp [sscanfWith, hs] at h
      | cons x t =>
        by_cases hx : x = ':'
        · subst hx
          simp only [sscanfWith, hs, if_true, List.length_cons, Nat.add_right_cancel_iff] at h
          exact ⟨f, t, e, hf, ih t h⟩
        · simp [sscanfWith, hs, hx] at h

theorem parseMACAddress_strict_iff (st : WOLState) (s : CStr) :
    (parseMACAddress st (some s)).1 = true ↔ (17 ≤ s.length ∧ MatchesScanfPattern s) := by
  rw [MatchesScanfPattern, ← sscanf_hexFields 5 s, ← macFormat_eq]
  by_cases h17 : s.length < 17
  · have e : parseMACAddress st (some s) = (false, st) := by
      simp [parseMACAddress, h17]
    rw [e]
    constructor
    · intro h
      cases h
    · intro h
      omega
  · by_cases h6 : (sscanf macFormat s).length = 6
    · have e : (parseMACAddress st (some s)).1 = true := by
        simp [parseMACAddress, h17, h6]
      rw [e]
      exact ⟨fun _ => ⟨by omega, h6⟩, fun _ => rfl⟩
    · have e : parseMACAddress st (some s) = (false, st) := by
        simp [parseMACAddress, h17, h6]
      rw [e]
      constructor
      · intro h
        cases h
      · intro h
        exact absurd h.2 h6

/-! ## The claims -/

/-- C1: for every 6-byte address `a` the packet built in `sendWOLPacket` has
exactly 102 bytes, byte `i` is `0xFF` for `i < 6` and `a[(i - 6) % 6]` for
`6 <= i < 102`; equivalently it is six `0xFF` bytes followed by 16 copies of `a`. -/
theorem C1_magic_packet_layout (a : MAC) :
    (packet a).length = 102 ∧
    (∀ i : Fin 102, (packet a)[i.val]? =
      some (if i.val < 6 then (0xFF : Byte) else a ⟨(i.val - 6) % 6, Nat.mod_lt _ (by decide)⟩)) ∧
    packet a = List.replicate 6 (0xFF : Byte) ++ (List.replicate 16 (List.ofFn a)).flatten := by
  refine ⟨packet_length a, fun i => packet_getElem? a i.val i.isLt, ?_⟩
  apply List.ext_getElem?
  intro n
  by_cases hn : n < 102
  · rw [packet_getElem? a n hn]
    by_cases h6 : n < 6
    · have hl : n < (List.replicate 6 (0xFF : Byte)).length := by
        rw [List.length_replicate]; exact h6
      rw [List.getElem?_append_left hl, List.getElem?_replicate, if_pos h6, if_pos h6]
    · have h6' : 6 ≤ n := Nat.le_of_not_lt h6
      have hl : (List.replicate 6 (0xFF : Byte)).length ≤ n := by
        rw [List.length_replicate]; exact h6'
      rw [List.getElem?_append_right hl]
      rw [List.length_replicate, flatten_replicate_getElem? _ _ _ (by simp; omega)]
      simp only [h6, if_false, List.length_ofFn]
      rw [List.getElem?_ofFn, List.ofFnNthVal, dif_pos (Nat.mod_lt _ (by decide))]
  · have h1 : (packet a).length ≤ n := by rw [packet_length]; omega
    rw [List.getElem?_eq_none h1, List.getElem?_eq_none]
    simp
    omega

/-- C2: for every 6-byte address `a` (the `targetMAC` of `st`), parsing the
string that `getMACString` produces for `a` returns `true` and stores exactly
`a`, whatever address was stored before; parsing an object's own string
leaves the object unchanged. -/
theorem C2_format_then_parse (st0 st : WOLState) :
    parseMACAddress st0 (some (getMACString st)) =
      (true, { st0 with targetMAC := st.targetMAC }) ∧
    parseMACAddress st (some (getMACString st)) = (true, st) := by
  have h (s0 : WOLState) : parseMACAddress s0 (some (getMACString st)) =
      (true, { s0 with targetMAC := st.targetMAC }) := by
    rw [getMACString_eq, parse_pairs s0
      (fun i => (Nat.digitChar ((st.targetMAC i).val / 16)).toUpper)
      (fun i => (Nat.digitChar ((st.targetMAC i).val % 16)).toUpper)
      (fun i => (st.targetMAC i).val / 16) (fun i => (st.targetMAC i).val % 16)
      (fun i => hexDigitVal_digitChar ⟨(st.targetMAC i).val / 16, by
        have := (st.targetMAC i).isLt
        omega⟩)
      (fun i => hexDigitVal_digitChar ⟨(st.targetMAC i).val % 16, Nat.mod_lt _ (by decide)⟩)]
    have e : (fun i : Fin 6 => toUInt8 (16 * ((st.targetMAC i).val / 16) +
        (st.targetMAC i).val % 16)) = st.targetMAC := funext fun i => toUInt8_div_mod _
    rw [e]
  exact ⟨h st0, h st⟩

/-- C3: for every canonical MAC string `s` (17 chars, six two-digit
hexadecimal groups of either case separated by colons) `parseMACAddress`
returns `true` and `getMACString` then returns `s` upper-cased; when `s` has
no lower-case char the result is `s` itself; and `"AA:BB:CC:DD:EE:FF"` parses
to the bytes `AA BB CC DD EE FF`. -/
theorem C3_parse_then_format (st : WOLState) (s : CStr) (hs : isCanonicalMAC s = true) :
    (parseMACAddress st (some s)).1 = true ∧
    getMACString (parseMACAddress st (some s)).2 = s.map Char.toUpper ∧
    ((∀ c ∈ s, c.toUpper = c) → getMACString (parseMACAddress st (some s)).2 = s) ∧
    List.ofFn (parseMACAddress st (some "AA:BB:CC:DD:EE:FF".toList)).2.targetMAC =
      [0xAA, 0xBB, 0xCC, 0xDD, 0xEE, 0xFF] := by
  obtain ⟨h, l, vh, vl, rfl, hh, hl⟩ := canonical_form s hs
  have hp := parse_pairs st h l vh vl hh hl
  have hf := format_parsed_pairs st h l vh vl hh hl
  refine ⟨by rw [hp], by rw [hp]; exact hf, fun hu => ?_, ?_⟩
  swap
  · have hx := parse_pairs st !['A', 'B', 'C', 'D', 'E', 'F'] !['A', 'B', 'C', 'D', 'E', 'F']
      ![10, 11, 12, 13, 14, 15] ![10, 11, 12, 13, 14, 15] (by decide) (by decide)
    have hy : "AA:BB:CC:DD:EE:FF".toList = ['A', 'A', ':', 'B', 'B', ':', 'C', 'C', ':',
      'D', 'D', ':', 'E', 'E', ':', 'F', 'F'] := rfl
    rw [hy]
    have hz : List.ofFn (fun i : Fin 6 => toUInt8 (16 * (![10, 11, 12, 13, 14, 15] : Fin 6 → Nat) i +
        (![10, 11, 12, 13, 14, 15] : Fin 6 → Nat) i)) = [0xAA, 0xBB, 0xCC, 0xDD, 0xEE, 0xFF] := by
      decide
    exact (congrArg (fun r => List.ofFn r.2.targetMAC) hx).trans hz
  rw [hp]
  refine hf.trans ?_
  conv_rhs => rw [← List.map_id [h 0, l 0, ':', h 1, l 1, ':', h 2, l 2, ':', h 3, l 3, ':',
    h 4, l 4, ':', h 5, l 5]]
  exact List.map_congr_left fun c hc => hu c hc

/-- C3 at concrete inputs: a lower-case string is upper-cased, an upper-case
string is returned as it is. -/
theorem C3_parse_then_format_witness :
    getMACString (parseMACAddress WOLState.default (some "0a:1b:2c:3d:4e:5f".toList)).2 =
      "0A:1B:2C:3D:4E:5F".toList ∧
    getMACString (parseMACAddress WOLState.default (some "AA:BB:CC:DD:EE:FF".toList)).2 =
      "AA:BB:CC:DD:EE:FF".toList :=
  ⟨(C3_parse_then_format WOLState.default "0a:1b:2c:3d:4e:5f".toList (by decide)).2.1,
    (C3_parse_then_format WOLState.default "AA:BB:CC:DD:EE:FF".toList (by decide)).2.2.1
      (by decide)⟩

/-- C4: `parseMACAddress` is atomic on failure: for every input (a string or
the null pointer) and every prior state, when it returns `false` the state,
and so the stored address, is unchanged; and whatever it returns, no field
other than `targetMAC` changes. -/
theorem C4_parse_atomic (st : WOLState) (macStr : Option CStr) :
    ((parseMACAddress st macStr).1 = false → (parseMACAddress st macStr).2 = st) ∧
    (parseMACAddress st macStr).2 =
      { st with targetMAC := (parseMACAddress st macStr).2.targetMAC } := by
  cases macStr with
  | none => exact ⟨fun _ => rfl, rfl⟩
  | some s =>
    by_cases h17 : s.length < 17
    · have e : parseMACAddress st (some s) = (false, st) := by
        simp [parseMACAddress, h17]
      rw [e]
      exact ⟨fun _ => rfl, rfl⟩
    · by_cases h6 : (sscanf macFormat s).length = 6
      · have e : parseMACAddress st (some s) =
            (true, { st with targetMAC := fun i => toUInt8 ((sscanf macFormat s).getD i.val 0) }) := by
          simp [parseMACAddress, h17, h6]
        rw [e]
        exact ⟨fun h => (by cases h), rfl⟩
      · have e : parseMACAddress st (some s) = (false, st) := by
          simp [parseMACAddress, h17, h6]
        rw [e]
        exact ⟨fun _ => rfl, rfl⟩

/-- C4 at concrete inputs: `"not-a-mac"` and the null pointer both fail and
leave the sample state as it was. -/
theorem C4_parse_atomic_witness :
    (parseMACAddress idleState (some "not-a-mac".toList)).1 = false ∧
    (parseMACAddress idleState (some "not-a-mac".toList)).2 = idleState ∧
    (parseMACAddress idleState none).2 = idleState :=
  ⟨by decide, (C4_parse_atomic idleState (some "not-a-mac".toList)).1 (by decide),
    (C4_parse_atomic idleState none).1 (by decide)⟩

/-- C5 as stated fails: `"1AA:2BB:3CC:4DD:5EE:6FF"` has 23 characters and
three-digit groups, so no prefix of it is six one-or-two-digit groups
separated by colons, and yet `parseMACAddress` accepts it, under each of the
C libraries. -/
theorem C5_three_digit_groups_accepted :
    (parseMACAddress WOLState.default (some "1AA:2BB:3CC:4DD:5EE:6FF".toList)).1 = true ∧
    17 ≤ "1AA:2BB:3CC:4DD:5EE:6FF".toList.length ∧
    matchesSpecPattern "1AA:2BB:3CC:4DD:5EE:6FF".toList = false ∧
    (parseMACAddressWith .matchingFailure WOLState.default
      (some "1AA:2BB:3CC:4DD:5EE:6FF".toList)).1 = true ∧
    (parseMACAddressWith .zeroTakesX WOLState.default
      (some "1AA:2BB:3CC:4DD:5EE:6FF".toList)).1 = true ∧
    (parseMACAddressWith .zeroLeavesX WOLState.default
      (some "1AA:2BB:3CC:4DD:5EE:6FF".toList)).1 = true := by
  decide

/-- C5, amended: under every C library, `parseMACAddress(s)` fails for the
null pointer and for every string shorter than 17 characters; it succeeds for
every string of at least 17 characters that begins with six hexadecimal
fields separated by colons, a field being optional white space, an optional
sign, an optional `0x` and one or more hexadecimal digits, of any number; and
it fails for every string that does not begin with six such fields even when
a `0x` without digits counts as a field.  Between the two shapes (a field
that is a `0x` without digit) the C library decides. -/
theorem C5_parse_success_bounds (lib : BarePrefix) (st : WOLState) (s : CStr) :
    ((17 ≤ s.length ∧ MatchesScanfPattern s) →
      (parseMACAddressWith lib st (some s)).1 = true) ∧
    ((parseMACAddressWith lib st (some s)).1 = true →
      (17 ≤ s.length ∧ MatchesLoosePattern s)) ∧
    (parseMACAddressWith lib st none).1 = false ∧
    (s.length < 17 → (parseMACAddressWith lib st (some s)).1 = false) ∧
    (¬ MatchesLoosePattern s → (parseMACAddressWith lib st (some s)).1 = false) := by
  have hup : (17 ≤ s.length ∧ MatchesScanfPattern s) →
      (parseMACAddressWith lib st (some s)).1 = true := by
    intro h
    have hp := (parseMACAddress_strict_iff st s).2 h
    rw [parseMACAddressWith_of_success lib st (some s) hp]
    exact hp
  have hdown : (parseMACAddressWith lib st (some s)).1 = true →
      (17 ≤ s.length ∧ MatchesLoosePattern s) := by
    intro h
    by_cases h17 : s.length < 17
    · simp [parseMACAddressWith, h17] at h
    · by_cases h6 : (sscanfWith lib macFormat s).length = 6
      · refine ⟨by omega, ?_⟩
        rw [macFormat_eq] at h6
        exact sscanfWith_loose lib 5 s h6
      · simp [parseMACAddressWith, h17, h6] at h
  refine ⟨hup, hdown, rfl, fun h => ?_, fun h => ?_⟩
  · cases hb : (parseMACAddressWith lib st (some s)).1 with
    | false => rfl
    | true =>
      have := (hdown hb).1
      omega
  · cases hb : (parseMACAddressWith lib st (some s)).1 with
    | false => rfl
    | true => exact absurd (hdown hb).2 h

/-- C5 (amended) at concrete inputs: the well-formed but short
`"1:2:3:4:5:6"` fails and `"1AA:2BB:3CC:4DD:5EE:6FF"` succeeds under a
library that reads a lone `0x` as 0; and the strings `"11:22:33:44:55:0x"`
and `"0x:11:22:33:44:55:66"` are accepted or not as the library decides. -/
theorem C5_parse_success_bounds_witness :
    (parseMACAddressWith .zeroTakesX WOLState.default (some "1:2:3:4:5:6".toList)).1 = false ∧
    (parseMACAddressWith .zeroTakesX WOLState.default
      (some "1AA:2BB:3CC:4DD:5EE:6FF".toList)).1 = true ∧
    MatchesLoosePattern "11:22:33:44:55:0x".toList ∧
    (parseMACAddressWith .zeroTakesX WOLState.default (some "11:22:33:44:55:0x".toList)).1 = true ∧
    (parseMACAddressWith .zeroLeavesX WOLState.default (some "11:22:33:44:55:0x".toList)).1 = true ∧
    (parseMACAddressWith .matchingFailure WOLState.default
      (some "11:22:33:44:55:0x".toList)).1 = false ∧
    (parseMACAddressWith .zeroTakesX WOLState.default
      (some "0x:11:22:33:44:55:66".toList)).1 = true ∧
    (parseMACAddressWith .zeroLeavesX WOLState.default
      (some "0x:11:22:33:44:55:66".toList)).1 = false ∧
    (parseMACAddressWith .matchingFailure WOLState.default
      (some "0x:11:22:33:44:55:66".toList)).1 = false :=
  ⟨(C5_parse_success_bounds .zeroTakesX WOLState.default "1:2:3:4:5:6".toList).2.2.2.1
      (by decide),
    (C5_parse_success_bounds .zeroTakesX WOLState.default "1AA:2BB:3CC:4DD:5EE:6FF".toList).1
      ⟨by decide, (sscanf_hexFields 5 _).1 (by decide)⟩,
    ((C5_parse_success_bounds .zeroTakesX WOLState.default "11:22:33:44:55:0x".toList).2.1
      (by decide)).2,
    by decide, by decide, by decide, by decide, by decide, by decide⟩

/-- C6: in either build the computed broadcast address has, for each octet
`i`, `broadcast[i] = ip[i] | (~mask[i] mod 256)`, where `~mask[i] mod 256` is
`255 - mask[i]`; every octet stays in `0..255`; and `192.168.1.42` with mask
`255.255.255.0` gives `192.168.1.255`. -/
theorem C6_broadcast_octets (pf : Platform) (ip m : IPv4) (i : Fin 4) :
    (broadcastAddress pf ip m i).val = (ip i).val ||| (bitNot32 (m i).val % 256) ∧
    bitNot32 (m i).val % 256 = 255 - (m i).val ∧
    (broadcastAddress pf ip m i).val ≤ 255 ∧
    List.ofFn (broadcastAddress pf ![192, 168, 1, 42] ![255, 255, 255, 0]) =
      [192, 168, 1, 255] := by
  refine ⟨?_, bitNot32_byte _, by have := (broadcastAddress pf ip m i).isLt; omega, ?_⟩
  · rw [bitNot32_byte]
    cases pf
    · exact orNotOctet_val _ _
    · exact broadcast_other_val ip m i
  · cases pf <;> decide

/-- C7: when the stored target address is `00:00:00:00:00:00`, no trigger
(network-connected event, periodic tick, state-JSON command, MQTT command)
emits a datagram, and `lastWOL` is unchanged. -/
theorem C7_zero_address_never_sent (env : Env) (t : Trigger) (st : WOLState)
    (h : st.targetMAC = fun _ => 0) :
    (fire env t st).2 = [] ∧ (fire env t st).1.lastWOL = st.lastWOL := by
  have hz : macIsSet st.targetMAC = false := by rw [h]; decide
  have hs (st' : WOLState) (h' : st'.targetMAC = st.targetMAC) :
      sendWOLPacket env st' = (st', []) := sendWOLPacket_unset env st' (by rw [h']; exact hz)
  cases t with
  | connected =>
    simp only [fire, connected]
    repeat' split
    all_goals first
      | exact ⟨rfl, rfl⟩
      | (rw [hs { st with triggered := true } rfl]; exact ⟨rfl, rfl⟩)
  | loop =>
    simp only [fire, loop]
    repeat' split
    all_goals first
      | exact ⟨rfl, rfl⟩
      | (rw [hs st rfl]; exact ⟨rfl, rfl⟩)
  | jsonState u =>
    simp only [fire, readFromJsonState]
    repeat' split
    all_goals first
      | exact ⟨rfl, rfl⟩
      | (rw [hs { st with triggered := true } rfl]; exact ⟨rfl, rfl⟩)
  | mqtt topic payload =>
    simp only [fire, onMqttMessage]
    repeat' split
    all_goals first
      | exact ⟨rfl, rfl⟩
      | (rw [hs { st with triggered := true } rfl]; exact ⟨rfl, rfl⟩)

/-- C7 at a concrete input: the default (all-zero) address, initialised, with
WiFi up, and the state-JSON command `wol = true`. -/
theorem C7_zero_address_never_sent_witness :
    (setup WOLState.default).targetMAC = (fun _ => 0) ∧
    (fire (sampleEnv 1000) (.jsonState (some true)) (setup WOLState.default)).2 = [] ∧
    (fire (sampleEnv 1000) (.jsonState (some true)) (setup WOLState.default)).1.lastWOL =
      (setup WOLState.default).lastWOL :=
  ⟨rfl, C7_zero_address_never_sent (sampleEnv 1000) (.jsonState (some true))
    (setup WOLState.default) rfl⟩

/-- C8, the code at the failing input: with `enabled == false`, an
initialised usermod whose address is configured and whose WiFi is up sends
one datagram when `readFromJsonState` receives `wol = true`, while the same
state sends nothing on `connected`, `loop` and the MQTT command. -/
theorem C8_json_command_sends_while_disabled :
    disabledState.enabled = false ∧
    ((readFromJsonState (sampleEnv 1000) (some true) disabledState).2.map
      fun d => (List.ofFn d.dest, d.port, d.payload.length)) = [([192, 168, 1, 255], 9, 102)] ∧
    (connected (sampleEnv 1000) disabledState).2 = [] ∧
    (loop (sampleEnv 1000) disabledState).2 = [] ∧
    (onMqttMessage (sampleEnv 1000) "/wol".toList "send".toList disabledState).1.2 = [] := by
  refine ⟨rfl, ?_, rfl, rfl, rfl⟩
  have hm : macIsSet ({ disabledState with triggered := true }).targetMAC = true := by decide
  have h := sendWOLPacket_ok (sampleEnv 1000) { disabledState with triggered := true } rfl hm rfl
  have hb : List.ofFn (broadcastAddress (sampleEnv 1000).platform (sampleEnv 1000).localIP
      (sampleEnv 1000).subnetMask) = [192, 168, 1, 255] := by decide
  show ((sendWOLPacket (sampleEnv 1000) { disabledState with triggered := true }).2.map _) = _
  rw [h]
  simp only [List.map, hb, packet_length]

/-- C9: from an initialised idle state (`triggered == false`) with the
feature enabled, `sendOnWifiConnect` set, a non-zero address, WiFi up and a
succeeding transport, the first `connected()` emits exactly one datagram (the
magic packet, to the broadcast address, port 9) and sets `triggered`; a
second `connected()`, directly or after any other triggers, emits nothing. -/
theorem C9_network_up_sends_once (env : Env) (st : WOLState)
    (hi : st.initDone = true) (he : st.enabled = true) (ht : st.triggered = false)
    (hs : st.sendOnWifiConnect = true) (hm : st.targetMAC ≠ fun _ => 0)
    (hw : env.wifiConnected = true) (hok : env.transportOk = true) :
    (connected env st).2 =
      [⟨broadcastAddress env.platform env.localIP env.subnetMask, 9, packet st.targetMAC⟩] ∧
    (connected env st).1.triggered = true ∧
    (∀ env2 : Env, (connected env2 (connected env st).1).2 = []) ∧
    (∀ (evs : List (Env × Trigger)) (env2 : Env),
      (connected env2 (runAll evs (connected env st).1)).2 = []) := by
  have hm' : macIsSet ({ st with triggered := true }).targetMAC = true := (macIsSet_iff _).2 hm
  have h1 : connected env st = sendWOLPacket env { st with triggered := true } := by
    simp [connected, hi, he, ht, hs]
  have h2 := sendWOLPacket_ok env { st with triggered := true } hw hm' hok
  have h3 : (connected env st).1.triggered = true := by rw [h1, h2]
  have h4 (st' : WOLState) (h' : st'.triggered = true) (env2 : Env) :
      (connected env2 st').2 = [] := by
    simp only [connected, h']
    split
    · rfl
    · simp
  refine ⟨by rw [h1, h2], h3, fun env2 => h4 _ h3 env2, fun evs env2 => ?_⟩
  exact h4 _ (runAll_triggered evs _ h3) env2

/-- C9 at a concrete input: the idle sample state, WiFi up at
`192.168.1.42/24`. -/
theorem C9_network_up_sends_once_witness :
    ((connected (sampleEnv 5) idleState).2.map
      fun d => (List.ofFn d.dest, d.port, d.payload.length)) = [([192, 168, 1, 255], 9, 102)] ∧
    (connected (sampleEnv 5) idleState).1.triggered = true ∧
    (connected (sampleEnv 9) (connected (sampleEnv 5) idleState).1).2 = [] := by
  have h := C9_network_up_sends_once (sampleEnv 5) idleState rfl rfl rfl rfl
    ((macIsSet_iff _).1 (by decide)) rfl rfl
  have hb : List.ofFn (broadcastAddress (sampleEnv 5).platform (sampleEnv 5).localIP
      (sampleEnv 5).subnetMask) = [192, 168, 1, 255] := by decide
  refine ⟨?_, h.2.1, h.2.2.1 (sampleEnv 9)⟩
  rw [h.1]
  simp only [List.map, hb, packet_length]

/-- C10 as stated fails: with the default `timeoutDuration` of 300000 ms, a
session whose last send was at time 0 does not resend on a tick at
`t = 300001 >= 30000`. -/
theorem C10_no_resend_after_timeout :
    activeState.enabled = true ∧ activeState.initDone = true ∧
    activeState.triggered = true ∧ activeState.periodicRetry = true ∧
    activeState.retryDelay = 30000 ∧ activeState.lastWOL = 0 ∧
    macIsSet activeState.targetMAC = true ∧
    (sampleEnv 300001).wifiConnected = true ∧ (sampleEnv 300001).transportOk = true ∧
    30000 ≤ (sampleEnv 300001).millis ∧
    (loop (sampleEnv 300001) activeState).2 = [] ∧
    (loop (sampleEnv 300001) activeState).1.lastWOL = 0 := by
  refine ⟨rfl, rfl, rfl, rfl, rfl, rfl, by decide, rfl, rfl, by decide, rfl, rfl⟩

/-- C10, amended: in an active session (enabled, initialised, `triggered`,
`periodicRetry`, WiFi up, non-zero address, succeeding transport) a tick
resends exactly when `now - lastWOL >= retryDelay` (32-bit unsigned
difference) and `now <= timeoutDuration`; a resend emits exactly one datagram
and sets `lastWOL` to `now`, otherwise nothing is sent and the state is
unchanged.  With `retryDelay = 30000` and the last send at time 0, a tick at
`t < 30000` sends nothing, and a tick at `30000 <= t <= timeoutDuration`
sends one datagram and sets `lastWOL` to `t`. -/
theorem C10_retry_timing (env : Env) (st : WOLState)
    (he : st.enabled = true) (hi : st.initDone = true) (ht : st.triggered = true)
    (hp : st.periodicRetry = true) (hm : st.targetMAC ≠ fun _ => 0)
    (hw : env.wifiConnected = true) (hok : env.transportOk = true)
    (hnow : env.millis < wordSize) :
    ((loop env st).2.length = 1 ↔
      (st.retryDelay ≤ subU32 env.millis st.lastWOL ∧ env.millis ≤ st.timeoutDuration)) ∧
    ((st.retryDelay ≤ subU32 env.millis st.lastWOL ∧ env.millis ≤ st.timeoutDuration) →
      loop env st = ({ st with lastWOL := env.millis },
        [⟨broadcastAddress env.platform env.localIP env.subnetMask, 9, packet st.targetMAC⟩])) ∧
    (¬ (st.retryDelay ≤ subU32 env.millis st.lastWOL ∧ env.millis ≤ st.timeoutDuration) →
      loop env st = (st, [])) ∧
    (st.retryDelay = 30000 → st.lastWOL = 0 →
      (env.millis < 30000 → loop env st = (st, [])) ∧
      (30000 ≤ env.millis → env.millis ≤ st.timeoutDuration →
        loop env st = ({ st with lastWOL := env.millis },
          [⟨broadcastAddress env.platform env.localIP env.subnetMask, 9,
            packet st.targetMAC⟩]))) := by
  have hm' : macIsSet st.targetMAC = true := (macIsSet_iff _).2 hm
  have hsend := sendWOLPacket_ok env st hw hm' hok
  rw [Nat.mod_eq_of_lt hnow] at hsend
  have hyes : (st.retryDelay ≤ subU32 env.millis st.lastWOL ∧
      env.millis ≤ st.timeoutDuration) → loop env st = ({ st with lastWOL := env.millis },
        [⟨broadcastAddress env.platform env.localIP env.subnetMask, 9,
          packet st.targetMAC⟩]) := by
    intro h
    simp [loop, retryDue, he, hi, hw, ht, hp, h.1, h.2, hsend]
  have hno : ¬ (st.retryDelay ≤ subU32 env.millis st.lastWOL ∧
      env.millis ≤ st.timeoutDuration) → loop env st = (st, []) := by
    intro h
    have h' : retryDue env st = false := by
      simp only [retryDue, hp, ht, Bool.true_and, Bool.and_eq_false_iff, decide_eq_false_iff_not]
      by_cases h1 : st.retryDelay ≤ subU32 env.millis st.lastWOL
      · exact Or.inr fun h2 => h ⟨h1, h2⟩
      · exact Or.inl h1
    simp [loop, he, hi, hw, h']
  refine ⟨?_, hyes, hno, ?_⟩
  · constructor
    · intro h
      by_contra hc
      rw [hno hc] at h
      simp at h
    · intro h
      rw [hyes h]
      rfl
  · intro hr hl
    have hsub : subU32 env.millis st.lastWOL = env.millis := by
      simp only [subU32, hl, wordSize] at *
      omega
    constructor
    · intro hlt
      exact hno (by rw [hsub, hr]; omega)
    · intro hge hto
      exact hyes ⟨by rw [hsub, hr]; exact hge, hto⟩

/-- C10 (amended) at concrete inputs: ticks at 29999 and at 30000 on the
active sample state. -/
theorem C10_retry_timing_witness :
    loop (sampleEnv 29999) activeState = (activeState, []) ∧
    (loop (sampleEnv 30000) activeState).2.length = 1 ∧
    (loop (sampleEnv 30000) activeState).1.lastWOL = 30000 := by
  have hm : activeState.targetMAC ≠ fun _ => 0 := (macIsSet_iff _).1 (by decide)
  have h1 := C10_retry_timing (sampleEnv 29999) activeState rfl rfl rfl rfl hm rfl rfl
    (by decide)
  have h2 := C10_retry_timing (sampleEnv 30000) activeState rfl rfl rfl rfl hm rfl rfl
    (by decide)
  refine ⟨(h1.2.2.2 rfl rfl).1 (by decide), ?_, ?_⟩
  · rw [(h2.2.2.2 rfl rfl).2 (by decide) (by decide)]
    rfl
  · rw [(h2.2.2.2 rfl rfl).2 (by decide) (by decide)]
    rfl

/-- C11 as stated fails: a tick beyond the timeout sends nothing, but the
active sample session keeps `triggered == true`, and a later `connected()`
sends nothing. -/
theorem C11_flag_survives_timeout :
    activeState.triggered = true ∧
    activeState.timeoutDuration < (sampleEnv 300001).millis ∧
    (loop (sampleEnv 300001) activeState).2 = [] ∧
    (loop (sampleEnv 300001) activeState).1.triggered = true ∧
    (connected (sampleEnv 300002) (loop (sampleEnv 300001) activeState).1).2 = [] := by
  refine ⟨rfl, by decide, rfl, rfl, rfl⟩

/-- C11, amended: for every active session (`triggered == true`) a tick at a
time beyond `timeoutDuration` sends nothing and leaves the whole state
unchanged; `triggered` stays `true`, and a later `connected()` sends nothing
and changes nothing. -/
theorem C11_timeout_stops_retries (env : Env) (st : WOLState)
    (ht : st.triggered = true) (hto : st.timeoutDuration < env.millis) :
    loop env st = (st, []) ∧
    (loop env st).1.triggered = true ∧
    (∀ env2 : Env, connected env2 (loop env st).1 = ((loop env st).1, [])) := by
  have h := loop_past_timeout env st hto
  rw [h]
  exact ⟨rfl, ht, fun env2 => connected_triggered env2 st ht⟩

/-- C11 (amended) at a concrete input: the active sample state at time
300001, then a `connected()` at 300002. -/
theorem C11_timeout_stops_retries_witness :
    loop (sampleEnv 300001) activeState = (activeState, []) ∧
    connected (sampleEnv 300002) (loop (sampleEnv 300001) activeState).1 =
      ((loop (sampleEnv 300001) activeState).1, []) :=
  ⟨(C11_timeout_stops_retries (sampleEnv 300001) activeState rfl (by decide)).1,
    (C11_timeout_stops_retries (sampleEnv 300001) activeState rfl (by decide)).2.2
      (sampleEnv 300002)⟩

/-- C12 as stated fails: the active sample session (last send at 0) is
disabled through `readFromConfig`, ticks at 10000 and 35000 send nothing, and
after `enabled` is set again a tick at 40000 resends at once, with no fresh
trigger in between. -/
theorem C12_session_resumes_after_reenable :
    activeState.triggered = true ∧
    (readFromConfig (some (enabledOnly false)) activeState).2.enabled = false ∧
    (loop (sampleEnv 10000) (readFromConfig (some (enabledOnly false)) activeState).2).2 = [] ∧
    (loop (sampleEnv 35000) (readFromConfig (some (enabledOnly false)) activeState).2).2 = [] ∧
    (readFromConfig (some (enabledOnly true))
      (runAll [(sampleEnv 10000, .loop), (sampleEnv 35000, .loop)]
        (readFromConfig (some (enabledOnly false)) activeState).2)).2.enabled = true ∧
    (loop (sampleEnv 40000) (readFromConfig (some (enabledOnly true))
      (runAll [(sampleEnv 10000, .loop), (sampleEnv 35000, .loop)]
        (readFromConfig (some (enabledOnly false)) activeState).2)).2).2.length = 1 := by
  refine ⟨rfl, by decide, ?_, ?_, by decide, by decide⟩
  · rw [loop_disabled _ _ (by decide)]
  · rw [loop_disabled _ _ (by decide)]

/-- C12, amended: disabling suspends the session and does not cancel it.
After a configuration read that sets `enabled = false`, every tick sends
nothing and changes nothing, however many ticks there are; after a read that
sets `enabled = true` again, `triggered`, `lastWOL` and `initDone` are what
they were before the feature was disabled, so on an initialised usermod with
WiFi up a tick resends as soon as `retryDue` holds, without a fresh trigger. -/
theorem C12_disable_suspends (st : WOLState) (cfgOff cfgOn : ConfigObject)
    (hoff : cfgOff.enabled = some false) (hon : cfgOn.enabled = some true) :
    (∀ env : Env, loop env (readFromConfig (some cfgOff) st).2 =
      ((readFromConfig (some cfgOff) st).2, [])) ∧
    (∀ envs : List Env, runAll (envs.map fun e => (e, Trigger.loop))
      (readFromConfig (some cfgOff) st).2 = (readFromConfig (some cfgOff) st).2) ∧
    (readFromConfig (some cfgOn) (readFromConfig (some cfgOff) st).2).2.enabled = true ∧
    (readFromConfig (some cfgOn) (readFromConfig (some cfgOff) st).2).2.triggered = st.triggered ∧
    (readFromConfig (some cfgOn) (readFromConfig (some cfgOff) st).2).2.lastWOL = st.lastWOL ∧
    (readFromConfig (some cfgOn) (readFromConfig (some cfgOff) st).2).2.initDone = st.initDone ∧
    (∀ env : Env, st.initDone = true → env.wifiConnected = true →
      loop env (readFromConfig (some cfgOn) (readFromConfig (some cfgOff) st).2).2 =
        if retryDue env (readFromConfig (some cfgOn) (readFromConfig (some cfgOff) st).2).2
        then sendWOLPacket env (readFromConfig (some cfgOn) (readFromConfig (some cfgOff) st).2).2
        else ((readFromConfig (some cfgOn) (readFromConfig (some cfgOff) st).2).2, [])) := by
  have hdis : (readFromConfig (some cfgOff) st).2.enabled = false := by
    rw [readFromConfig_snd]
    simp [hoff]
  have hen : (readFromConfig (some cfgOn) (readFromConfig (some cfgOff) st).2).2.enabled = true := by
    rw [readFromConfig_snd]
    simp [hon]
  have hinit : (readFromConfig (some cfgOn) (readFromConfig (some cfgOff) st).2).2.initDone =
      st.initDone := by
    rw [readFromConfig_snd, readFromConfig_snd]
  refine ⟨fun env => loop_disabled env _ hdis, fun envs => ?_, hen, ?_, ?_, hinit, ?_⟩
  · induction envs with
    | nil => rfl
    | cons e rest ih =>
      simp only [List.map, runAll, fire, loop_disabled e _ hdis]
      exact ih
  · rw [readFromConfig_snd, readFromConfig_snd]
  · rw [readFromConfig_snd, readFromConfig_snd]
  · intro env hi hw
    simp [loop, hen, hinit, hi, hw]

/-- C12 (amended) at a concrete input: the active sample session disabled
and enabled again resends at 40000. -/
theorem C12_disable_suspends_witness :
    (loop (sampleEnv 40000) (readFromConfig (some (enabledOnly true))
      (readFromConfig (some (enabledOnly false)) activeState).2).2).2.length = 1 := by
  rw [(C12_disable_suspends activeState (enabledOnly false) (enabledOnly true) rfl rfl).2.2.2.2.2.2
    (sampleEnv 40000) rfl rfl]
  decide

/-- C13 as stated fails: `s = 4294968` seconds fits 32 bits, but `s * 1000`
does not; `readFromConfig` stores 704 ms, `addToConfig` then writes 0, and
reading that back stores 0 instead of 704. -/
theorem C13_seconds_overflow :
    4294968 < wordSize ∧
    (readFromConfig (some (sampleConfig "AA:BB:CC:DD:EE:FF".toList 4294968 300)) idleState).2.retryDelay
      = 704 ∧
    (addToConfig (readFromConfig (some (sampleConfig "AA:BB:CC:DD:EE:FF".toList 4294968 300))
      idleState).2).retryDelay = some 0 ∧
    (readFromConfig (some (addToConfig (readFromConfig
      (some (sampleConfig "AA:BB:CC:DD:EE:FF".toList 4294968 300)) idleState).2))
      (readFromConfig (some (sampleConfig "AA:BB:CC:DD:EE:FF".toList 4294968 300))
        idleState).2).2.retryDelay = 0 := by
  decide

/-- C13, amended: `readFromConfig` stores `s * 1000 mod 2^32` for a persisted
value `s`.  For every `s` with `s * 1000 < 2^32` (at most 4294967 seconds) it
stores exactly `s * 1000` ms and `addToConfig` then writes back exactly `s`,
for `retryDelay` and for `timeoutDuration`; and for every state whose two
fields are multiples of 1000 below `2^32`, `addToConfig` followed by
`readFromConfig` leaves both unchanged. -/
theorem C13_seconds_roundtrip (st : WOLState) (cfg : ConfigObject) :
    (∀ s, cfg.retryDelay = some s →
      (readFromConfig (some cfg) st).2.retryDelay = (s % wordSize * 1000) % wordSize) ∧
    (∀ s, cfg.timeoutDuration = some s →
      (readFromConfig (some cfg) st).2.timeoutDuration = (s % wordSize * 1000) % wordSize) ∧
    (∀ s, cfg.retryDelay = some s → s * 1000 < wordSize →
      (readFromConfig (some cfg) st).2.retryDelay = s * 1000 ∧
      (addToConfig (readFromConfig (some cfg) st).2).retryDelay = some s) ∧
    (∀ s, cfg.timeoutDuration = some s → s * 1000 < wordSize →
      (readFromConfig (some cfg) st).2.timeoutDuration = s * 1000 ∧
      (addToConfig (readFromConfig (some cfg) st).2).timeoutDuration = some s) ∧
    (st.retryDelay < wordSize → 1000 ∣ st.retryDelay →
      (readFromConfig (some (addToConfig st)) st).2.retryDelay = st.retryDelay) ∧
    (st.timeoutDuration < wordSize → 1000 ∣ st.timeoutDuration →
      (readFromConfig (some (addToConfig st)) st).2.timeoutDuration = st.timeoutDuration) := by
  have h1000 : 1000 % wordSize = 1000 := by rw [wordSize_eq]
  refine ⟨fun s hs => ?_, fun s hs => ?_, fun s hs hlt => ?_, fun s hs hlt => ?_,
    fun hlt hdvd => ?_, fun hlt hdvd => ?_⟩
  · rw [readFromConfig_snd]
    simp [hs, mulU32, h1000]
  · rw [readFromConfig_snd]
    simp [hs, mulU32, h1000]
  · have e : (readFromConfig (some cfg) st).2.retryDelay = s * 1000 := by
      rw [readFromConfig_snd]
      simp [hs, mulU32_small s hlt]
    refine ⟨e, ?_⟩
    simp only [addToConfig, e]
    simp
  · have e : (readFromConfig (some cfg) st).2.timeoutDuration = s * 1000 := by
      rw [readFromConfig_snd]
      simp [hs, mulU32_small s hlt]
    refine ⟨e, ?_⟩
    simp only [addToConfig, e]
    simp
  · rw [readFromConfig_snd]
    simp only [Option.getD_some, addToConfig]
    rw [mulU32_div _ hlt]
    exact Nat.div_mul_cancel hdvd
  · rw [readFromConfig_snd]
    simp only [Option.getD_some, addToConfig]
    rw [mulU32_div _ hlt]
    exact Nat.div_mul_cancel hdvd

/-- C13 (amended) at concrete inputs: 45 seconds are stored as 45000 ms and
written back as 45; the defaults survive a write and a read. -/
theorem C13_seconds_roundtrip_witness :
    (readFromConfig (some (sampleConfig "AA:BB:CC:DD:EE:FF".toList 45 600)) idleState).2.retryDelay
      = 45 * 1000 ∧
    (addToConfig (readFromConfig (some (sampleConfig "AA:BB:CC:DD:EE:FF".toList 45 600))
      idleState).2).retryDelay = some 45 ∧
    (readFromConfig (some (addToConfig idleState)) idleState).2.timeoutDuration =
      idleState.timeoutDuration :=
  ⟨((C13_seconds_roundtrip idleState (sampleConfig "AA:BB:CC:DD:EE:FF".toList 45 600)).2.2.1
      45 rfl (by decide)).1,
    ((C13_seconds_roundtrip idleState (sampleConfig "AA:BB:CC:DD:EE:FF".toList 45 600)).2.2.1
      45 rfl (by decide)).2,
    (C13_seconds_roundtrip idleState (sampleConfig "AA:BB:CC:DD:EE:FF".toList 45 600)).2.2.2.2.2
      (by decide) (by decide)⟩

/-- C14 as stated fails: a configuration object that has every key and the
MAC string `"not-a-mac"` makes `readFromConfig` return `true`; the stored
address stays. -/
theorem C14_malformed_mac_reported_complete :
    (parseMACAddress idleState (some "not-a-mac".toList)).1 = false ∧
    (readFromConfig (some (sampleConfig "not-a-mac".toList 30 300)) idleState).1 = true ∧
    List.ofFn (readFromConfig (some (sampleConfig "not-a-mac".toList 30 300)) idleState).2.targetMAC
      = List.ofFn idleState.targetMAC := by
  decide

/-- C14, amended: for every configuration object whose `targetMAC` string
fails to parse, the stored address is retained unchanged, and the value
`readFromConfig` returns does not depend on the MAC string: it is `true`
exactly when the keys `enabled`, `sendOnWifiConnect` and `periodicRetry` are
all present. -/
theorem C14_malformed_mac_ignored (st : WOLState) (cfg : ConfigObject) (s : CStr)
    (hmac : cfg.targetMAC = some s) (hfail : (parseMACAddress st (some s)).1 = false) :
    (readFromConfig (some cfg) st).2.targetMAC = st.targetMAC ∧
    (readFromConfig (some cfg) st).1 =
      (cfg.enabled.isSome && cfg.sendOnWifiConnect.isSome && cfg.periodicRetry.isSome) := by
  constructor
  · rw [readFromConfig_snd]
    simp only [Option.getD_some, hmac]
    rw [parseMACAddress_fail _ s (by rw [parseMACAddress_fst_indep _ st]; exact hfail)]
  · rw [readFromConfig_fst]
    simp

/-- C14 (amended) at concrete inputs: `"not-a-mac"` in a complete object,
and in an object without the key `periodicRetry`. -/
theorem C14_malformed_mac_ignored_witness :
    (readFromConfig (some (sampleConfig "not-a-mac".toList 30 300)) idleState).2.targetMAC =
      idleState.targetMAC ∧
    (readFromConfig (some { sampleConfig "not-a-mac".toList 30 300 with periodicRetry := none })
      idleState).1 = false :=
  ⟨(C14_malformed_mac_ignored idleState (sampleConfig "not-a-mac".toList 30 300)
      "not-a-mac".toList rfl (by decide)).1,
    (C14_malformed_mac_ignored idleState
      { sampleConfig "not-a-mac".toList 30 300 with periodicRetry := none }
      "not-a-mac".toList rfl (by decide)).2⟩

/-- C15: `lastWOL` records only completed sends.  When the send does not
complete (WiFi down, all-zero address, `beginPacket` fails, `write` does not
return 102, or `endPacket` fails) `sendWOLPacket` leaves every field as it
was, so `addToJsonState` reports what it reported before; when it completes,
`lastWOL` becomes the current `millis()` and no other field changes, and
`addToJsonState` of an initialised, enabled usermod reports that time. -/
theorem C15_lastWOL_only_on_success (env : Env) (st : WOLState) :
    (sendCompletes env st = false →
      (sendWOLPacket env st).1 = st ∧
      addToJsonState (sendWOLPacket env st).1 = addToJsonState st) ∧
    (sendCompletes env st = true →
      (sendWOLPacket env st).1 = { st with lastWOL := env.millis % wordSize } ∧
      (env.millis < wordSize → (sendWOLPacket env st).1.lastWOL = env.millis) ∧
      (st.initDone = true → st.enabled = true →
        (addToJsonState (sendWOLPacket env st).1).map (fun o => o.lastSent) =
          some (env.millis % wordSize))) := by
  constructor
  · intro h
    rw [sendWOLPacket_incomplete env st h]
    exact ⟨rfl, rfl⟩
  · intro h
    rw [sendWOLPacket_complete env st h]
    refine ⟨rfl, fun hlt => Nat.mod_eq_of_lt hlt, fun hi he => ?_⟩
    simp [addToJsonState, hi, he]

/-- C15 at concrete inputs: a send with a failing `endPacket` on the active
sample state leaves it unchanged, and a completed send at time 777 sets
`lastWOL` to 777. -/
theorem C15_lastWOL_only_on_success_witness :
    (sendWOLPacket { sampleEnv 777 with endPacketOk := false } activeState).1 = activeState ∧
    (sendWOLPacket (sampleEnv 777) activeState).1.lastWOL = 777 :=
  ⟨((C15_lastWOL_only_on_success { sampleEnv 777 with endPacketOk := false } activeState).1
      (by decide)).1,
    ((C15_lastWOL_only_on_success (sampleEnv 777) activeState).2 (by decide)).2.1 (by decide)⟩

/-- C16 as stated fails: from the defaults, one configuration read whose
`retryDelay` is 0 stores a `retryDelay` of 0 ms. -/
theorem C16_zero_delay_accepted :
    WOLState.default.retryDelay = 30000 ∧
    (readAll [some (sampleConfig "AA:BB:CC:DD:EE:FF".toList 0 300)] WOLState.default).retryDelay
      = 0 := by
  decide

/-- C16, amended: starting from the defaults, after any sequence of
`readFromConfig` calls in which every `retryDelay` value is missing or lies
between 1 and 4294967 seconds, the stored `retryDelay` is at least 1000 ms,
hence strictly greater than 0. -/
theorem C16_retryDelay_positive (cfgs : List (Option ConfigObject))
    (h : ∀ cfg, some cfg ∈ cfgs → ∀ s, cfg.retryDelay = some s → 1 ≤ s ∧ s ≤ 4294967) :
    1000 ≤ (readAll cfgs WOLState.default).retryDelay ∧
    0 < (readAll cfgs WOLState.default).retryDelay := by
  have key : ∀ (l : List (Option ConfigObject)) (st : WOLState),
      (∀ cfg, some cfg ∈ l → ∀ s, cfg.retryDelay = some s → 1 ≤ s ∧ s ≤ 4294967) →
      1000 ≤ st.retryDelay → st.retryDelay < wordSize →
      1000 ≤ (readAll l st).retryDelay := by
    intro l
    induction l with
    | nil => exact fun st _ h1 _ => h1
    | cons root rest ih =>
      intro st hl h1 h2
      have hstep : 1000 ≤ (readFromConfig root st).2.retryDelay ∧
          (readFromConfig root st).2.retryDelay < wordSize := by
        rw [readFromConfig_snd]
        show 1000 ≤ mulU32 _ 1000 ∧ mulU32 _ 1000 < wordSize
        cases hr : (root.getD ConfigObject.empty).retryDelay with
        | none =>
          rw [Option.getD_none, mulU32_div _ h2]
          rw [wordSize_eq] at *
          omega
        | some s =>
          cases root with
          | none => cases hr
          | some cfg =>
            have hs := hl cfg (List.mem_cons_self _ _) s hr
            rw [Option.getD_some, mulU32_small s (by rw [wordSize_eq]; omega)]
            rw [wordSize_eq]
            omega
      exact ih _ (fun cfg hc => hl cfg (List.mem_cons_of_mem _ hc)) hstep.1 hstep.2
  have h0 := key cfgs WOLState.default h (by decide) (by decide)
  exact ⟨h0, by omega⟩

/-- C16 (amended) at concrete inputs: a read without the object, then one
with a delay of 1 second. -/
theorem C16_retryDelay_positive_witness :
    0 < (readAll [none, some (sampleConfig "AA:BB:CC:DD:EE:FF".toList 1 300)]
      WOLState.default).retryDelay :=
  (C16_retryDelay_positive [none, some (sampleConfig "AA:BB:CC:DD:EE:FF".toList 1 300)]
    (by
      intro cfg hc s hs
      simp only [List.mem_cons, Option.some.injEq, List.mem_singleton, List.not_mem_nil,
        or_false, false_or] at hc
      rcases hc with hc | hc
      · cases hc
      · subst hc
        cases hs
        exact ⟨by decide, by decide⟩)).2

/-- C17 as stated fails: `"100000000:0:0:0:0:0"` is accepted, its first group
has the numeric value `2^32`, whose value mod 256 is 0, but the byte stored
is `0xFF` (the conversion saturates at `ULONG_MAX`); the same happens for the
group `2^64` of `"10000000000000000:0:0:0:0:0"`. -/
theorem C17_oversized_group_saturates :
    (parseMACAddress idleState (some "100000000:0:0:0:0:0".toList)).1 = true ∧
    (HexGroup.ofDigits "100000000".toList).value = 4294967296 ∧
    (HexGroup.ofDigits "100000000".toList).value % 256 = 0 ∧
    List.ofFn (parseMACAddress idleState (some "100000000:0:0:0:0:0".toList)).2.targetMAC =
      [0xFF, 0, 0, 0, 0, 0] ∧
    (parseMACAddress idleState (some "10000000000000000:0:0:0:0:0".toList)).1 = true ∧
    (HexGroup.ofDigits "10000000000000000".toList).value % 256 = 0 ∧
    List.ofFn (parseMACAddress idleState
      (some "10000000000000000:0:0:0:0:0".toList)).2.targetMAC = [0xFF, 0, 0, 0, 0, 0] := by
  decide

/-- C17, amended: for every input of at least 17 characters made of six
well-formed hexadecimal groups separated by colons (and followed by anything
that does not continue the sixth group), when every group has a magnitude
below `2^32`, `parseMACAddress` succeeds and stores byte `i = v_i mod 256`,
where `v_i` is the numeric value of group `i`, sign included. -/
theorem C17_groups_masked_to_8_bits (st : WOLState) (g : Fin 6 → HexGroup) (rest : CStr)
    (hwf : ∀ i, (g i).WellFormed)
    (hcl : (g 5).pre = [] → (g 5).digits = ['0'] → ∀ x t, rest = x :: t → x ≠ 'x' ∧ x ≠ 'X')
    (hrest : ∀ c t, rest = c :: t → hexDigitVal c = none)
    (hlen : 17 ≤ (macText g rest).length)
    (hmag : ∀ i, (g i).magnitude < wordSize) :
    (parseMACAddress st (some (macText g rest))).1 = true ∧
    ∀ i : Fin 6, ((parseMACAddress st (some (macText g rest))).2.targetMAC i).val =
      ((g i).value % 256).toNat := by
  have hv := sscanf_groups g rest hwf hcl hrest
  have h17 : ¬ (macText g rest).length < 17 := Nat.not_lt.mpr hlen
  have hp : parseMACAddress st (some (macText g rest)) =
      (true, { st with targetMAC := fun i => toUInt8 ((sscanf macFormat (macText g rest)).getD i.val 0) }) := by
    rcases parseMACAddress_cases st (macText g rest) with h | h
    · have : (sscanf macFormat (macText g rest)).length = 6 := by rw [hv]; rfl
      simp [parseMACAddress, h17, this] at h
    · exact h
  rw [hp]
  refine ⟨rfl, fun i => ?_⟩
  have hval (j : Fin 6) : (toUInt8 (strtoulValue (decide ((g j).sign = ['-'])) (g j).magnitude)).val =
      ((g j).value % 256).toNat := by
    rw [toUInt8_strtoulValue _ _ (hmag j)]
    simp only [HexGroup.value, decide_eq_true_eq]
  show (toUInt8 ((sscanf macFormat (macText g rest)).getD i.val 0)).val = _
  rw [hv]
  fin_cases i
  · exact hval 0
  · exact hval 1
  · exact hval 2
  · exact hval 3
  · exact hval 4
  · exact hval 5

/-- C17 (amended) at a concrete input: `"1AA:2BB:3CC:4DD:5EE:6FF"` stores
`AA BB CC DD EE FF`. -/
theorem C17_groups_masked_to_8_bits_witness :
    macText (fun i => HexGroup.ofDigits
      (![['1', 'A', 'A'], ['2', 'B', 'B'], ['3', 'C', 'C'], ['4', 'D', 'D'], ['5', 'E', 'E'],
        ['6', 'F', 'F']] i)) [] = "1AA:2BB:3CC:4DD:5EE:6FF".toList ∧
    ∀ i : Fin 6, ((parseMACAddress idleState (some (macText (fun i => HexGroup.ofDigits
      (![['1', 'A', 'A'], ['2', 'B', 'B'], ['3', 'C', 'C'], ['4', 'D', 'D'], ['5', 'E', 'E'],
        ['6', 'F', 'F']] i)) []))).2.targetMAC i).val =
      (![0xAA, 0xBB, 0xCC, 0xDD, 0xEE, 0xFF] : Fin 6 → Nat) i := by
  refine ⟨by decide, fun i => ?_⟩
  rw [(C17_groups_masked_to_8_bits idleState (fun i => HexGroup.ofDigits
      (![['1', 'A', 'A'], ['2', 'B', 'B'], ['3', 'C', 'C'], ['4', 'D', 'D'], ['5', 'E', 'E'],
        ['6', 'F', 'F']] i)) []
    (by
      intro i
      fin_cases i <;>
        exact ⟨by decide, Or.inl rfl, Or.inl rfl, by decide, by decide⟩)
    (by
      intro _ h
      exact absurd h (by decide))
    nil_stops (by decide)
    (by
      intro i
      fin_cases i <;> decide)).2 i]
  fin_cases i <;> decide

/-- C18: the timeout is an absolute cut-off on `millis()`.  For every state, a
tick at `now > timeoutDuration` sends nothing and changes nothing, whenever
the session was activated and whenever it last sent; a session activated by
`connected()` after `timeoutDuration` therefore never retries; and for
`now <= timeoutDuration` the tick sends exactly when the other conditions of
`loop` hold. -/
theorem C18_timeout_is_absolute (env : Env) (st : WOLState) :
    (st.timeoutDuration < env.millis → loop env st = (st, [])) ∧
    (∀ env1 : Env, st.timeoutDuration < env1.millis → env1.millis ≤ env.millis →
      (loop env (connected env1 st).1).2 = []) ∧
    (env.millis ≤ st.timeoutDuration →
      loop env st =
        if st.enabled && st.initDone && env.wifiConnected && st.periodicRetry &&
            st.triggered && decide (st.retryDelay ≤ subU32 env.millis st.lastWOL)
        then sendWOLPacket env st else (st, [])) := by
  refine ⟨loop_past_timeout env st, fun env1 h1 h2 => ?_, fun h => ?_⟩
  · rw [loop_past_timeout env _ (by rw [connected_timeoutDuration]; omega)]
  · unfold loop retryDue
    cases st.enabled <;> cases st.initDone <;> cases env.wifiConnected <;>
      cases st.periodicRetry <;> cases st.triggered <;> simp [h]

/-- C18 at concrete inputs: with the default timeout of 300000 ms, a session
activated at 400000 does not retry at 500000, and the active sample session
retries at 300000. -/
theorem C18_timeout_is_absolute_witness :
    (loop (sampleEnv 500000) (connected (sampleEnv 400000) idleState).1).2 = [] ∧
    (loop (sampleEnv 300000) activeState).2.length = 1 := by
  refine ⟨(C18_timeout_is_absolute (sampleEnv 500000) idleState).2.1 (sampleEnv 400000)
    (by decide) (by decide), ?_⟩
  rw [(C18_timeout_is_absolute (sampleEnv 300000) activeState).2.2 (by decide)]
  decide

/-- C19: for every IPv4 local address and subnet mask the per-octet branch
(ESP8266) and the 32-bit word branch compute the same four octets, each being
`ip[i] | (255 - mask[i])`. -/
theorem C19_broadcast_paths_agree (ip m : IPv4) :
    broadcastAddress .esp8266 ip m = broadcastAddress .other ip m ∧
    ∀ i : Fin 4, (broadcastAddress .esp8266 ip m i).val = (ip i).val ||| (255 - (m i).val) := by
  refine ⟨funext fun i => Fin.ext ?_, fun i => orNotOctet_val _ _⟩
  rw [broadcast_other_val]
  exact orNotOctet_val _ _

/-- C20: before `setup()` (`initDone == false`) no trigger entry point sends a
datagram or changes any field (so `triggered` and `lastWOL` stay), the MQTT
handler returns `false`, and `setup()` changes `initDone` only. -/
theorem C20_nothing_before_setup (env : Env) (t : Trigger) (st : WOLState)
    (h : st.initDone = false) :
    fire env t st = (st, []) ∧
    (fire env t st).1.triggered = st.triggered ∧
    (fire env t st).1.lastWOL = st.lastWOL ∧
    (∀ topic payload : CStr, onMqttMessage env topic payload st = ((st, []), false)) ∧
    setup st = { st with initDone := true } := by
  have hf : fire env t st = (st, []) := by
    cases t <;> simp [fire, connected, loop, readFromJsonState, onMqttMessage, h]
  rw [hf]
  exact ⟨rfl, rfl, rfl, fun topic payload => by simp [onMqttMessage, h], rfl⟩

/-- C20 at a concrete input: the defaults with the sample address, not yet set
up, receive the MQTT command `send` with WiFi up. -/
theorem C20_nothing_before_setup_witness :
    fire (sampleEnv 1000) (.mqtt "/wol".toList "send".toList)
        { WOLState.default with targetMAC := sampleMAC } =
      ({ WOLState.default with targetMAC := sampleMAC }, []) :=
  (C20_nothing_before_setup (sampleEnv 1000) (.mqtt "/wol".toList "send".toList)
    { WOLState.default with targetMAC := sampleMAC } rfl).1

end UsermodWakeOnLAN
